import Mathlib

/-!
# Verification of the Malta-law corrective RAG system

Shallow embedding, in Lean 4, of the parts of the repository that the
specification's testable properties talk about:

* `legal_crag.py`   — the corrective pipeline (grading, generation,
  validation, citation checking, confidence threshold);
* `vector_store.py` — result processing and de-duplication by the
  compound (doc_code, article) key, and the direct article lookup;
* `doc_processor.py` — provision segmentation (monotonicity filter,
  sanity ceiling, label de-duplication) and token-window chunking;
* `search_engine.py` — the minimum-evidence gate on search results.

Modelling conventions, used throughout:

* Python strings are `List Char`; `Option (List Char)` models a possibly
  missing dictionary entry (`none` = the key is absent, so that the
  different `dict.get` defaults used at different call sites can be
  reproduced exactly).
* Python floats are `ℚ`.  All float literals appearing in the source
  (0.45, 0.5, 0.85, 0.95, …) are exactly representable in binary
  floating point or are only compared against quantities whose distance
  from them far exceeds the rounding error, so the rational model is
  faithful for every comparison the code performs.
* The external LLM ("oracle") is an arbitrary function from prompt text
  to reply text, matching the temperature-0 (deterministic) calls of the
  source.  Statements quantify over all oracles.
* Code that can raise (`[...][0]` indexing after a filter) is modelled
  with `Option`: `none` is the exception path; totality theorems prove
  the exception path unreachable.
* Loops that advance by more than one element per step are written with
  an explicit fuel argument that the wrapper instantiates with a bound
  (the input length) proved — or evident — to be sufficient; the fuel-0
  branch is unreachable for those inputs.
-/

set_option maxRecDepth 100000

attribute [local semireducible] Rat.add Rat.mul Rat.inv Rat.sub Rat.ofScientific

/-! ## String utilities (Python `str` operations on `List Char`) -/

/-- The character list of a string literal. -/
def chars (s : String) : List Char := s.data

/-- Python `str.upper()` (ASCII behaviour, which is all the source relies on). -/
def upperChars (l : List Char) : List Char := l.map Char.toUpper

/-- Python `str.lower()` (ASCII behaviour). -/
def lowerChars (l : List Char) : List Char := l.map Char.toLower

/-- Source `beginsWith hay needle`: `hay` starts with `needle`. -/
def beginsWith : List Char → List Char → Bool
  | _, [] => true
  | [], _ :: _ => false
  | h :: hs, n :: ns => h == n && beginsWith hs ns

/-- Python `needle in hay` (substring test). -/
def hasSub : List Char → List Char → Bool
  | [], needle => beginsWith [] needle
  | h :: t, needle => beginsWith (h :: t) needle || hasSub t needle

/-- Python `str.split(sep)` for a one-character separator: keeps empty
pieces, `"".split(c) = [""]`. -/
def splitOn (sep : Char) : List Char → List (List Char)
  | [] => [[]]
  | c :: t =>
    if c = sep then [] :: splitOn sep t
    else
      match splitOn sep t with
      | [] => [[c]]
      | l :: ls => (c :: l) :: ls

/-- Python `str.strip()` (whitespace trim at both ends). -/
def pyStrip (l : List Char) : List Char :=
  ((l.dropWhile Char.isWhitespace).reverse.dropWhile Char.isWhitespace).reverse

/-- Python `str.strip(cs)` for an explicit character set. -/
def stripSet (cs : List Char) (l : List Char) : List Char :=
  ((l.dropWhile (cs.contains ·)).reverse.dropWhile (cs.contains ·)).reverse

/-- A `\w` character of Python's `re` (ASCII fragment). -/
def isWordChar (c : Char) : Bool := c.isAlphanum || c = '_'

def digitVal (c : Char) : Nat := c.toNat - '0'.toNat

/-- Numeric value of a digit string (`int(s)` on a string of digits). -/
def natOfDigits (ds : List Char) : Nat := ds.foldl (fun n c => 10 * n + digitVal c) 0

/-- Decimal rendering of a natural number (Python `str(n)` / `f"{n}"`). -/
def natToChars (n : Nat) : List Char := Nat.toDigits 10 n

/-- Try to match the regex `(\d+\.?\d*)` anchored at the head of `l`,
returning the matched value as a rational (`float(match.group(1))`). -/
def matchNumberAt (l : List Char) : Option ℚ :=
  let ds := l.takeWhile Char.isDigit
  if ds = [] then none
  else
    let rest := l.drop ds.length
    let frac :=
      match rest with
      | '.' :: r2 => r2.takeWhile Char.isDigit
      | _ => []
    some ((natOfDigits ds : ℚ) + (natOfDigits frac : ℚ) / (10 : ℚ) ^ frac.length)

/-- Source `re.search(r'(\d+\.?\d*)', l)`: leftmost match of a decimal number. -/
def findNumber : List Char → Option ℚ
  | [] => none
  | c :: t =>
    match matchNumberAt (c :: t) with
    | some q => some q
    | none => findNumber t

/-- Two-decimal rendering of a nonnegative rational, modelling Python's
`f"{x:.2f}"`; the tie-rounding mode (here: half-up) is immaterial to every
claim, which only uses the rendering as an opaque marker payload. -/
def format2 (q : ℚ) : List Char :=
  let n := (q * 100 + 1 / 2).floor.toNat
  natToChars (n / 100) ++ '.' ::
    (if n % 100 < 10 then '0' :: natToChars (n % 100) else natToChars (n % 100))

/-! ## `legal_crag.py` — the corrective RAG pipeline -/

namespace LegalCrag

/-- Document relevance grades (`GradeLevel`). -/
inductive GradeLevel where
  | RELEVANT
  | IRRELEVANT
  | PARTIAL
deriving DecidableEq, Repr

/-- Grading result for a retrieved document (`DocumentGrade`). -/
structure DocumentGrade where
  document_id : List Char
  grade : GradeLevel
  reasoning : List Char
  confidence : ℚ
deriving DecidableEq, Repr

/-- Answer validation result (`ValidationResult`). -/
structure ValidationResult where
  grounded : Bool
  confidence : ℚ
  issues : List (List Char)
  citation_accuracy : ℚ
deriving DecidableEq, Repr

/-- A retrieved document as consumed by the pipeline: a Python dict with
`id`, `content` and a `metadata` dict carrying `citation` and `article`.
`none` models an absent key, so each call site's `dict.get` default can be
applied exactly where the source applies it. -/
structure Doc where
  id : Option (List Char)
  content : Option (List Char)
  citation : Option (List Char)
  article : Option (List Char)
deriving DecidableEq, Repr

/-- Complete CRAG pipeline response (`CRAGResponse`). -/
structure CRAGResponse where
  question : List Char
  answer : List Char
  confidence : ℚ
  grounded : Bool
  relevant_docs : List Doc
  validation_result : ValidationResult
  grade_details : List DocumentGrade
deriving DecidableEq, Repr

/-- The external text-completion oracle (`_call_llm` at temperature 0):
an arbitrary deterministic map from prompt text to reply text. -/
def Oracle : Type := List Char → List Char

/-- Confidence threshold for accepting answers (`CONFIDENCE_THRESHOLD`). -/
def CONFIDENCE_THRESHOLD : ℚ := 0.85

/-- Source `GRADING_PROMPT.format(question=q, document=d)`: the template with the
two placeholders substituted. -/
def grading_prompt (question document : List Char) : List Char :=
  chars "You are grading legal documents for relevance to a Malta law question.\n\nQuestion: " ++
  question ++
  chars "\n\nDocument Content:\n" ++
  document ++
  chars "\n\nDoes this document directly answer the question about Malta law?\nConsider:\n1. Is this about Malta jurisdiction (not other countries)?\n2. Does it address the specific legal topic asked about?\n3. Does it contain information that helps answer the question?\n\nRespond with ONLY ONE WORD: RELEVANT, IRRELEVANT, or PARTIAL\n\nYour response:"

/-- Source `GENERATION_PROMPT.format(question=q, docs=d)`. -/
def generation_prompt (question docs : List Char) : List Char :=
  chars "You are a legal research assistant for Malta law.\n\nQuestion: " ++
  question ++
  chars "\n\nRelevant Documents:\n" ++
  docs ++
  chars "\n\nCRITICAL INSTRUCTIONS:\n1. Answer ONLY using the provided documents above\n2. Cite ALL sources as [Document Title, Article X] or [Document Title, Page Y]\n3. If documents don't fully answer the question, say \"Based on available documents...\"\n4. NEVER use general legal knowledge or information not in the documents\n5. If you cannot answer from the documents, say \"Insufficient information in retrieved documents\"\n6. Include specific article numbers and exact quotes when possible\n\nYour answer:"

/-- Source `VALIDATION_PROMPT.format(docs=d, answer=a)`. -/
def validation_prompt (docs answer : List Char) : List Char :=
  chars "Validate this legal answer strictly against source documents.\n\nSource Documents:\n" ++
  docs ++
  chars "\n\nGenerated Answer:\n" ++
  answer ++
  chars "\n\nValidation Checklist:\n1. Is every claim in the answer found in the source documents?\n2. Do all article citations actually exist in the documents?\n3. Do all numbers (fines, percentages, dates) match exactly?\n4. Are quotes accurate?\n5. Is the jurisdiction (Malta) correct?\n\nRespond in this EXACT format:\nGROUNDED: YES or NO\nCONFIDENCE: 0.0-1.0\nISSUES: [list specific problems, or write \"None\"]\n\nYour validation:"

/-- One step of `grade_documents`: truncation of very long documents for
grading (`content[:2000] if len(content) > 2000 else content`). -/
def contentPreview (content : List Char) : List Char :=
  if 2000 < content.length then content.take 2000 else content

/-- The response-parsing tail of `grade_documents`: map the oracle reply to
a grade and a fixed confidence prior. -/
def parseGradeReply (response : List Char) : GradeLevel × ℚ :=
  let ru := pyStrip (upperChars response)
  if hasSub ru (chars "RELEVANT") && !hasSub ru (chars "IRRELEVANT") then
    (GradeLevel.RELEVANT, 0.95)
  else if hasSub ru (chars "IRRELEVANT") then (GradeLevel.IRRELEVANT, 0.90)
  else if hasSub ru (chars "PARTIAL") then (GradeLevel.PARTIAL, 0.70)
  else (GradeLevel.PARTIAL, 0.50)

/-- Source `grade_documents`: grade every retrieved document for relevance. -/
def grade_documents (oracle : Oracle) (question : List Char) (documents : List Doc) :
    List DocumentGrade :=
  documents.map fun doc =>
    let doc_id := doc.id.getD (chars "unknown")
    let content := doc.content.getD []
    let preview := contentPreview content
    let prompt := grading_prompt question
      (chars "[" ++ doc.citation.getD (chars "Unknown") ++ chars "]\n" ++ preview)
    let response := oracle prompt
    let gc := parseGradeReply response
    { document_id := doc_id, grade := gc.1, reasoning := response, confidence := gc.2 }

/-- The fixed insufficiency answer returned when no relevant documents
survive grading. -/
def insufficiencyAnswer : List Char :=
  chars "Insufficient information in retrieved documents to answer this question about Malta law."

/-- The `docs_text` accumulation of `generate_answer`
(`"\n--- Document {i}: {citation} ---\n{content}\n"`, `i` counted from 1). -/
def genDocsText (docs : List Doc) : List Char :=
  (docs.enumFrom 1).foldl
    (fun acc p =>
      acc ++ chars "\n--- Document " ++ natToChars p.1 ++ chars ": " ++
        p.2.citation.getD (chars "Document " ++ natToChars p.1) ++ chars " ---\n" ++
        p.2.content.getD [] ++ chars "\n")
    []

/-- Source `generate_answer`: answer from relevant documents only; with an empty
evidence set, short-circuit to the fixed insufficiency answer without
calling the oracle. -/
def generate_answer (oracle : Oracle) (question : List Char) (relevant_docs : List Doc) :
    List Char :=
  if relevant_docs = [] then insufficiencyAnswer
  else oracle (generation_prompt question (genDocsText relevant_docs))

/-- The `docs_text` accumulation of `validate_answer`
(`"\n--- {citation} ---\n{content}\n"`, default citation `Document {i}`). -/
def valDocsText (docs : List Doc) : List Char :=
  (docs.enumFrom 1).foldl
    (fun acc p =>
      acc ++ chars "\n--- " ++
        p.2.citation.getD (chars "Document " ++ natToChars p.1) ++ chars " ---\n" ++
        p.2.content.getD [] ++ chars "\n")
    []

/-- Source `_parse_grounded`.  `none` models the `[... ][0]` `IndexError` path,
proved unreachable below. -/
def parse_grounded (response : List Char) : Option Bool :=
  if hasSub (upperChars response) (chars "GROUNDED:") then
    match (splitOn '\n' response).filter
        (fun line => hasSub (upperChars line) (chars "GROUNDED:")) with
    | [] => none
    | line :: _ => some (hasSub (upperChars line) (chars "YES"))
  else some false

/-- Source `_parse_confidence`.  `none` models the `[...][0]` `IndexError` path,
proved unreachable below. -/
def parse_confidence (response : List Char) : Option ℚ :=
  if hasSub (upperChars response) (chars "CONFIDENCE:") then
    match (splitOn '\n' response).filter
        (fun line => hasSub (upperChars line) (chars "CONFIDENCE:")) with
    | [] => none
    | line :: _ =>
      match findNumber line with
      | some q => some q
      | none => some 0.5
  else some 0.5

/-- Everything after the first occurrence of `sep` (`s.split(sep, 1)[1]`);
`none` when `sep` does not occur (the `IndexError` path). -/
def afterFirst (sep : Char) : List Char → Option (List Char)
  | [] => none
  | c :: t => if c = sep then some t else afterFirst sep t

/-- The character set of `strip('[]"\'')` in `_parse_issues` (the quote
written via its code point). -/
def issueStripChars : List Char := ['[', ']', '"', Char.ofNat 39]

/-- Source `_parse_issues`. -/
def parse_issues (response : List Char) : Option (List (List Char)) :=
  if hasSub (upperChars response) (chars "ISSUES:") then
    match (splitOn '\n' response).filter
        (fun line => hasSub (upperChars line) (chars "ISSUES:")) with
    | [] => some []
    | line :: _ =>
      match afterFirst ':' line with
      | none => none
      | some tail =>
        let issues_text := pyStrip tail
        if hasSub (upperChars issues_text) (chars "NONE") || issues_text = chars "[]" then
          some []
        else
          some (((splitOn ',' issues_text).map
            (fun i => stripSet issueStripChars (pyStrip i))).filter (· ≠ []))
  else some []

/-- The regex `\[([^\]]+)\]` of `_check_citations`: `re.findall` of all
non-overlapping bracketed substrings (fuel-driven scanner; fuel = input
length is always sufficient since every step consumes at least one
character). -/
def extractCitationsAux : Nat → List Char → List (List Char)
  | 0, _ => []
  | _ + 1, [] => []
  | fuel + 1, c :: rest =>
    if c = '[' then
      let inner := rest.takeWhile (· ≠ ']')
      if inner ≠ [] ∧ rest.drop inner.length ≠ [] then
        inner :: extractCitationsAux fuel (rest.drop (inner.length + 1))
      else extractCitationsAux fuel rest
    else extractCitationsAux fuel rest

/-- Source `re.findall(r'\[([^\]]+)\]', answer)`. -/
def extractCitations (answer : List Char) : List (List Char) :=
  extractCitationsAux answer.length answer

/-- The `available_citations` set of `_check_citations` (Python set,
modelled as the accumulated list — only membership is ever used). -/
def availableCitations (docs : List Doc) : List (List Char) :=
  docs.foldr
    (fun doc acc =>
      (if doc.citation.getD [] ≠ [] then [doc.citation.getD []] else []) ++
      (if doc.article.getD [] ≠ [] then [chars "Article " ++ doc.article.getD []] else []) ++
      acc)
    []

/-- The per-citation validity test of `_check_citations`: strip, then a
case-insensitive substring relationship in either direction against some
available citation. -/
def citationMatches (avail : List (List Char)) (citation : List Char) : Bool :=
  let c := pyStrip citation
  avail.any fun a =>
    hasSub (lowerChars c) (lowerChars a) || hasSub (lowerChars a) (lowerChars c)

/-- Source `_check_citations`: citation-accuracy score in [0, 1].  (The dead
`else 0.0` of the final ternary is unreachable: the division is only
performed when citations were extracted.) -/
def check_citations (answer : List Char) (source_docs : List Doc) : ℚ :=
  let citations := extractCitations answer
  if citations = [] then 0.5
  else
    let avail := availableCitations source_docs
    (citations.countP (citationMatches avail) : ℚ) / (citations.length : ℚ)

/-- Source `validate_answer`: oracle validation plus the deterministic citation
check; final confidence is `min(oracle confidence, citation_accuracy)`. -/
def validate_answer (oracle : Oracle) (answer : List Char) (source_docs : List Doc) :
    Option ValidationResult := do
  let response := oracle (validation_prompt (valDocsText source_docs) answer)
  let grounded ← parse_grounded response
  let confidence ← parse_confidence response
  let issues ← parse_issues response
  let citation_accuracy := check_citations answer source_docs
  let final_confidence := min confidence citation_accuracy
  pure { grounded := grounded, confidence := final_confidence, issues := issues,
         citation_accuracy := citation_accuracy }

/-- The low-confidence marker `f"[LOW CONFIDENCE - {confidence:.2f}] "`. -/
def lowConfidenceMarker (confidence : ℚ) : List Char :=
  chars "[LOW CONFIDENCE - " ++ format2 confidence ++ chars "] "

/-- The relevance filter of `answer_legal_question`: keep the documents
whose grade is RELEVANT or PARTIAL. -/
def relevantOf (docs : List Doc) (grades : List DocumentGrade) : List Doc :=
  ((docs.zip grades).filter fun p =>
    p.2.grade == GradeLevel.RELEVANT || p.2.grade == GradeLevel.PARTIAL).map (·.1)

/-- Source `answer_legal_question`: the complete pipeline (grade, generate,
validate, threshold).  The `verbose` printing of the source is pure I/O and
is omitted. -/
def answer_legal_question (oracle : Oracle) (question : List Char)
    (retrieved_docs : List Doc) : Option CRAGResponse := do
  let grades := grade_documents oracle question retrieved_docs
  let relevant_docs := relevantOf retrieved_docs grades
  let answer := generate_answer oracle question relevant_docs
  let validation ← validate_answer oracle answer relevant_docs
  let finalAnswer :=
    if validation.confidence < CONFIDENCE_THRESHOLD then
      lowConfidenceMarker validation.confidence ++ answer
    else answer
  pure { question := question, answer := finalAnswer, confidence := validation.confidence,
         grounded := validation.grounded, relevant_docs := relevant_docs,
         validation_result := validation, grade_details := grades }

end LegalCrag

/-! ## Generic stable sorts

Python's `list.sort` is stable; a stable sort by a key is uniquely
determined by the key and the input order, so the insertion sorts below
compute exactly what the source's `sort(key=...)` / `sort(key=...,
reverse=True)` calls compute. -/

/-- Insert for the ascending stable sort: `x` goes after every earlier
element with a key `≤` its own. -/
def insertByKey {α β : Type} [LinearOrder β] (key : α → β) (x : α) : List α → List α
  | [] => [x]
  | y :: t => if key y < key x then y :: insertByKey key x t else x :: y :: t

/-- Stable ascending sort by key (`sort(key=...)`). -/
def sortByKey {α β : Type} [LinearOrder β] (key : α → β) : List α → List α
  | [] => []
  | x :: t => insertByKey key x (sortByKey key t)

/-- Insert for the descending stable sort. -/
def insertByKeyDesc {α β : Type} [LinearOrder β] (key : α → β) (x : α) : List α → List α
  | [] => [x]
  | y :: t => if key x < key y then y :: insertByKeyDesc key x t else x :: y :: t

/-- Stable descending sort by key (`sort(key=..., reverse=True)`). -/
def sortByKeyDesc {α β : Type} [LinearOrder β] (key : α → β) : List α → List α
  | [] => []
  | x :: t => insertByKeyDesc key x (sortByKeyDesc key t)

/-! ## `doc_processor.py` — provision segmentation and chunking -/

namespace DocProcessor

/-- Source `normalize_article_id`: full match of `^(0*)(\d+)([A-Z]?)$` rebuilt as
`f"{int(base)}{suffix}"`, the input returned unchanged when the regex does
not match.  The `ds = []` branch is the regex backtracking case where `\d+`
must take the last `'0'` out of the greedy `0*` group. -/
def normalize_article_id (art : List Char) : List Char :=
  let zs := art.takeWhile (· = '0')
  let rest := art.drop zs.length
  let ds := rest.takeWhile Char.isDigit
  let rest2 := rest.drop ds.length
  if ds = [] then
    if zs ≠ [] then
      match rest2 with
      | [] => chars "0"
      | [c] => if c.isUpper then '0' :: [c] else art
      | _ => art
    else art
  else
    match rest2 with
    | [] => natToChars (natOfDigits ds)
    | [c] => if c.isUpper then natToChars (natOfDigits ds) ++ [c] else art
    | _ => art

/-- Source `article_numeric_value`, scaled by 10 to an integer: "26" ↦ 260,
"26A" ↦ 261 (`26.1` in the source), unparsable ↦ −10 (`-1.0`).  All float
values the source compares are multiples of 0.1 below 551, so the
`val <= prev_val + 1e-6` comparison of the source is exactly
`val10 ≤ prev10` (0.1 ≫ 1e-6 ≫ the float representation error at these
magnitudes). -/
def article_numeric_value10 (art : List Char) : Int :=
  let norm := normalize_article_id art
  let ds := norm.takeWhile Char.isDigit
  let rest := norm.drop ds.length
  if ds = [] then -10
  else
    match rest with
    | [] => (natOfDigits ds : Int) * 10
    | [c] =>
      if c.isUpper then (natOfDigits ds : Int) * 10 + ((c.toNat : Int) - ('A'.toNat : Int) + 1)
      else -10
    | _ => -10

/-- Length of a match of `---\s*PAGE\s*\d+\s*---` (IGNORECASE) anchored at
the head of `l`, as used by the `re.sub` in `_clean_content`. -/
def pageMarkerLen (l : List Char) : Option Nat :=
  if beginsWith l (chars "---") then
    let r1 := l.drop 3
    let w1 := r1.takeWhile Char.isWhitespace
    let r2 := r1.drop w1.length
    if beginsWith (lowerChars r2) (chars "page") then
      let r3 := r2.drop 4
      let w2 := r3.takeWhile Char.isWhitespace
      let r4 := r3.drop w2.length
      let ds := r4.takeWhile Char.isDigit
      if ds = [] then none
      else
        let r5 := r4.drop ds.length
        let w3 := r5.takeWhile Char.isWhitespace
        let r6 := r5.drop w3.length
        if beginsWith r6 (chars "---") then
          some (3 + w1.length + 4 + w2.length + ds.length + w3.length + 3)
        else none
    else none
  else none

/-- Source `re.sub(r'---\s*PAGE\s*\d+\s*---', ' ', content, flags=re.IGNORECASE)`:
leftmost non-overlapping replacement (fuel = input length suffices: every
step consumes at least one character). -/
def removePageMarkersAux : Nat → List Char → List Char
  | 0, l => l
  | _ + 1, [] => []
  | fuel + 1, c :: t =>
    match pageMarkerLen (c :: t) with
    | some n => ' ' :: removePageMarkersAux fuel ((c :: t).drop n)
    | none => c :: removePageMarkersAux fuel t

def removePageMarkers (l : List Char) : List Char := removePageMarkersAux l.length l

/-- Source `re.sub(r'\s+', ' ', content)`: collapse whitespace runs. -/
def collapseWs : List Char → List Char
  | [] => []
  | [c] => if c.isWhitespace then [' '] else [c]
  | c1 :: c2 :: t =>
    if c1.isWhitespace then
      if c2.isWhitespace then collapseWs (c2 :: t) else ' ' :: collapseWs (c2 :: t)
    else c1 :: collapseWs (c2 :: t)

/-- Source `_clean_content`: drop page markers, collapse whitespace, strip. -/
def _clean_content (content : List Char) : List Char :=
  pyStrip (collapseWs (removePageMarkers content))

/-- Source `page_for_index`: the source's binary search over the ascending
page-marker positions, modelled by its specification — the page of the last
marker at or before `idx`, defaulting to the first marker's page (or 1 when
there are no markers). -/
def pageFor (pagePositions : List (Nat × Nat)) (idx : Nat) : Nat :=
  match pagePositions with
  | [] => 1
  | p0 :: _ => pagePositions.foldl (fun best sp => if sp.1 ≤ idx then sp.2 else best) p0.2

/-- A candidate heading match, abstracting an `re` match object of either
segmentation pass: the captured label (`m.group(1)`), the raw block text
(primary pass: `m.group(2)`; loose pass: the `content[start_idx:end_idx]`
slice), and the match position (`m.start()`).  Quantifying over candidate
lists subsumes quantifying over input documents. -/
structure Cand where
  label : List Char
  raw : List Char
  pos : Nat
deriving DecidableEq, Repr

/-- An extracted provision (`articles` list entry of `_extract_articles`). -/
structure Article where
  article : List Char
  content : List Char
  page : Nat
  position : Nat
deriving DecidableEq, Repr

/-- Source `MAX_ARTICLE = 550`, on the ×10 scale. -/
def MAX_ARTICLE10 : Int := 5500

/-- Running state of the accept/reject scan: `prev_val`, `seen_ids`, and
the accepted articles in parse order. -/
structure ScanState where
  prev_val : Int
  seen_ids : List (List Char)
  articles : List Article
deriving Repr

/-- One candidate of either segmentation loop of `_extract_articles`:
range sanity check, monotonicity filter, empty-content filter, label
de-duplication, then acceptance. -/
def acceptStep (pagePositions : List (Nat × Nat)) (st : ScanState) (c : Cand) : ScanState :=
  let art_id := normalize_article_id c.label
  let val := article_numeric_value10 art_id
  if val ≤ 0 ∨ MAX_ARTICLE10 < val then st
  else if val ≤ st.prev_val then st
  else
    let cleaned := _clean_content c.raw
    if cleaned = [] then st
    else if art_id ∈ st.seen_ids then st
    else
      { prev_val := val
        seen_ids := art_id :: st.seen_ids
        articles := st.articles ++
          [{ article := art_id, content := cleaned,
             page := pageFor pagePositions c.pos, position := st.articles.length + 1 }] }

/-- Source `_extract_articles`, parameterised by the page-marker positions and by
the candidate matches of the two regex passes.  The loose pass runs only
when the primary pass accepted fewer than 500 articles, continuing with the
same `prev_val` and `seen_ids`; the combined list is then re-sorted by
numeric article value (`articles.sort(key=...)`, a stable sort). -/
def _extract_articles (pagePositions : List (Nat × Nat))
    (primaryCands looseCands : List Cand) : List Article :=
  let pp := sortByKey (fun sp => sp.1) pagePositions
  let st1 := primaryCands.foldl (acceptStep pp) ⟨-10, [], []⟩
  if st1.articles.length < 500 then
    let st2 := looseCands.foldl (acceptStep pp) st1
    sortByKey (fun a => article_numeric_value10 a.article) st2.articles
  else st1.articles

/-- Source `self.max_tokens` (token budget per chunk). -/
def max_tokens : Nat := 3000

/-- Source `self.overlap_tokens` (window overlap). -/
def overlap_tokens : Nat := 200

/-- A chunk as produced by `_create_chunks`, reduced to the fields the
claims speak about: the token slice (`tokens[start:end]`) and the
`chunk_index` / `total_chunks` metadata. -/
structure TChunk where
  tokens : List Nat
  chunk_index : Nat
  total_chunks : Nat
deriving DecidableEq, Repr

/-- The `while start < len(tokens)` loop of `_create_chunks`.  Each
iteration emits `tokens[start:end]` with `end = min(start + budget, len)`
and `total_chunks = (len + budget - 1) // budget`, advances to
`start = end - overlap`, and breaks when `start >= len - overlap`.
Fuel = `len(tokens)` is always sufficient: an iteration that recurses
advances `start` by `budget - overlap ≥ 1` and keeps `start < len`. -/
def chunkLoopAux (budget overlap : Nat) (tokens : List Nat) :
    Nat → Nat → Nat → List TChunk
  | 0, _, _ => []
  | fuel + 1, start, idx =>
    if start < tokens.length then
      let e := min (start + budget) tokens.length
      let c : TChunk :=
        { tokens := (tokens.drop start).take (e - start), chunk_index := idx,
          total_chunks := (tokens.length + budget - 1) / budget }
      let start2 := e - overlap
      if tokens.length - overlap ≤ start2 then [c]
      else c :: chunkLoopAux budget overlap tokens fuel start2 (idx + 1)
    else []

/-- Source `_create_chunks` on the token stream of one provision: one chunk when
the provision fits the budget, otherwise the overlapping window loop. -/
def _create_chunks (budget overlap : Nat) (tokens : List Nat) : List TChunk :=
  if tokens.length ≤ budget then [⟨tokens, 0, 1⟩]
  else chunkLoopAux budget overlap tokens tokens.length 0 0

/-- Source `_create_chunks` at the configured budget and overlap. -/
def create_chunks (tokens : List Nat) : List TChunk :=
  _create_chunks max_tokens overlap_tokens tokens

end DocProcessor

/-! ## `vector_store.py` — result processing and de-duplication -/

namespace VectorStore

/-- Chunk metadata as stored in the collection: `doc_code`, `article` and
`chunk_index` read with `.get` (so possibly absent), `citation` read by
direct indexing (always present on ingested chunks). -/
structure VMeta where
  doc_code : Option (List Char)
  article : Option (List Char)
  chunk_index : Option Nat
  citation : List Char
deriving DecidableEq, Repr

/-- One record stored in the ChromaDB collection. -/
structure VEntry where
  id : List Char
  content : List Char
  metadata : VMeta
deriving DecidableEq, Repr

/-- One processed retrieval candidate (the dicts built by
`_process_results` / `get_article`). -/
structure VResult where
  id : List Char
  content : List Char
  metadata : VMeta
  score : ℚ
  citation : List Char
deriving DecidableEq, Repr

/-- One aligned row of a ChromaDB query reply (`results['ids'][0][i]`,
`results['documents'][0][i]`, `results['metadatas'][0][i]`,
`results['distances'][0][i]`); the reply being empty is modelled by the
empty row list. -/
structure RawItem where
  id : List Char
  document : List Char
  metadata : VMeta
  distance : ℚ
deriving DecidableEq, Repr

/-- Match of the group `(\d+[A-Z]?)\b` (or `(\d+[a-z]?)\b` — the suffix
class is a parameter) anchored at the head of `rest`, with the regex
backtracking discipline: the optional suffix letter is kept only when a
word boundary follows it, and dropping it only helps when a boundary
follows the digits. -/
def matchNumSuffix (sufOk : Char → Bool) (rest : List Char) : Option (List Char) :=
  let ds := rest.takeWhile Char.isDigit
  if ds = [] then none
  else
    match rest.drop ds.length with
    | [] => some ds
    | c :: r3 =>
      if sufOk c then
        match r3 with
        | [] => some (ds ++ [c])
        | d :: _ => if isWordChar d then none else some (ds ++ [c])
      else if isWordChar c then none else some ds

/-- Match of `(?:article|art\.?)\s*(\d+[A-Z]?)\b` anchored at the head of
`l` (the leading word boundary is checked by the caller).  When a dot
follows `art`, the backtracking attempt without the dot always fails on
the dot itself, so only the dot-consuming attempt is tried. -/
def articleKeyAt (l : List Char) : Option (List Char) :=
  (if beginsWith l (chars "article") then
    matchNumSuffix Char.isUpper ((l.drop 7).dropWhile Char.isWhitespace)
  else none) <|>
  (if beginsWith l (chars "art") then
    match l.drop 3 with
    | '.' :: r => matchNumSuffix Char.isUpper (r.dropWhile Char.isWhitespace)
    | r => matchNumSuffix Char.isUpper (r.dropWhile Char.isWhitespace)
  else none)

/-- Left-to-right scan for the regex of `_process_results`, tracking
whether the previous character was a word character (for `\b`). -/
def findArticleKey : Bool → List Char → Option (List Char)
  | _, [] => none
  | prevWord, c :: t =>
    (if !prevWord then articleKeyAt (c :: t) else none) <|>
    findArticleKey (isWordChar c) t

/-- Python `re.search` of `\b(?:article|art\.?)\s*(\d+[A-Z]?)\b` over the
lowered query, returning `group(1)`. -/
def articleQueryMatch (queryLower : List Char) : Option (List Char) :=
  findArticleKey false queryLower

/-- Source `get_article` in its unconstrained branch (`doc_code=None`, the
branch `_process_results` calls): `collection.get(where={"article": n})`
over the stored records, formatted with score 1.0 and stably sorted by
`chunk_index` (default 0).  The `doc_code`-constrained branch goes through
the external embedding query and is exercised by no claim. -/
def get_article (entries : List VEntry) (article_num : List Char) : List VResult :=
  let formatted := (entries.filter fun e => e.metadata.article == some article_num).map
    fun e =>
      { id := e.id, content := e.content, metadata := e.metadata,
        score := 1, citation := e.metadata.citation }
  sortByKey (fun r => r.metadata.chunk_index.getD 0) formatted

/-- The compound de-duplication key `(md.get('doc_code'), md.get('article'))`. -/
abbrev DKey := Option (List Char) × Option (List Char)

def dedupKey (r : VResult) : DKey := (r.metadata.doc_code, r.metadata.article)

/-- One `article_map` update of `_deduplicate_results`: Python dicts keep
the insertion position of a key, so an update replaces the value in place. -/
def insertDedup (k : DKey) (r : VResult) : List (DKey × VResult) → List (DKey × VResult)
  | [] => [(k, r)]
  | (k0, r0) :: t =>
    if k0 = k then (if r0.score < r.score then (k0, r) else (k0, r0)) :: t
    else (k0, r0) :: insertDedup k r t

/-- Source `_deduplicate_results`: merge multi-chunk articles by the
compound key, keeping the highest-scoring chunk, in key-insertion order. -/
def _deduplicate_results (results : List VResult) : List VResult :=
  (results.foldl (fun m r => insertDedup (dedupKey r) r m) []).map (·.2)

/-- Source `_process_results`: empty-reply check, direct article lookup
when the query names an article (taken only when the lookup is nonempty),
otherwise distance-to-similarity conversion, stable descending sort by
score, de-duplication, truncation to `n_results`. -/
def _process_results (entries : List VEntry) (raw : List RawItem) (query : List Char)
    (n_results : Nat) : List VResult :=
  if raw = [] then []
  else
    let direct : Option (List VResult) :=
      match articleQueryMatch (lowerChars query) with
      | some g =>
        let article_results := get_article entries (upperChars g)
        if article_results ≠ [] then some (article_results.take n_results) else none
      | none => none
    match direct with
    | some rs => rs
    | none =>
      let processed := raw.map fun it =>
        { id := it.id, content := it.document, metadata := it.metadata,
          score := 1 / (1 + it.distance), citation := it.metadata.citation : VResult }
      let sorted := sortByKeyDesc (fun r => r.score) processed
      (_deduplicate_results sorted).take n_results

end VectorStore

/-! ## `search_engine.py` — the minimum-evidence gate -/

namespace SearchEngine

open VectorStore

/-- Query type detected by `_analyze_query`. -/
inductive QType where
  | article_lookup
  | general
deriving DecidableEq, Repr

/-- Query intent detected by `_analyze_query`. -/
inductive Intent where
  | definition
  | procedural
  | penalty
  | requirement
  | temporal
deriving DecidableEq, Repr

/-- The analysis dict produced by `_analyze_query`.  The analyzer itself is
a pure function of the query; theorems quantify over every analysis value,
which subsumes every query. -/
structure Analysis where
  qtype : QType
  intent : Option Intent
  keywords : List (List Char)
  article_num : Option (List Char)
  doc_hint : Option (List Char)
  doc_hint_explicit : Bool
deriving Repr

/-- The vector store as seen by `SearchEngine`: an abstract similarity
search (query text, result count, optional `doc_code` filter) and an
abstract article lookup (article number, optional document code). -/
structure Store where
  search : List Char → Nat → Option (List Char) → List VResult
  get_article : List Char → Option (List Char) → List VResult

/-- The deterministic lexical expansions of `_enhance_query`. -/
def enhancementText : Intent → List Char
  | .definition => chars "definition meaning interpret define term construed means"
  | .procedural => chars "procedure process steps how to application shall apply filing"
  | .penalty => chars "penalty fine punishment offence liable conviction contravention sanctions"
  | .requirement => chars "requirement duty obligation must shall required compliance"
  | .temporal => chars "time period deadline within days months not later than when"

/-- Python `" ".join(parts)`. -/
def joinSpace (parts : List (List Char)) : List Char :=
  match parts with
  | [] => []
  | p :: ps => p ++ ps.foldl (fun acc q => acc ++ ' ' :: q) []

def companiesActCode : List Char := chars "companies_act"

def code13Code : List Char := chars "code_13"

/-- Source `_enhance_query`: query, intent expansion, keyword
reinforcement, corpus nudge, joined by spaces. -/
def _enhance_query (query : List Char) (analysis : Analysis) : List Char :=
  let parts := [query]
  let parts := parts ++ (match analysis.intent with
    | some i => [enhancementText i]
    | none => [])
  let parts := parts ++ (if analysis.keywords ≠ [] then [joinSpace analysis.keywords] else [])
  let parts := parts ++
    (if analysis.doc_hint = some companiesActCode then [chars "Companies Act Cap. 386"]
     else if analysis.doc_hint = some code13Code then [chars "Commercial Code Cap. 13"]
     else [])
  joinSpace parts

/-- Match of `article\s+(\d+[a-z]?)\b` anchored at the head of `l` (used by
the re-ranking boost; leading boundary checked by the caller). -/
def boostArticleAt (l : List Char) : Option (List Char) :=
  if beginsWith l (chars "article") then
    let r := l.drop 7
    let ws := r.takeWhile Char.isWhitespace
    if ws = [] then none
    else matchNumSuffix Char.isLower (r.drop ws.length)
  else none

/-- Left-to-right scan for `re.search(r"\barticle\s+(\d+[a-z]?)\b", content)`. -/
def findBoostArticle : Bool → List Char → Option (List Char)
  | _, [] => none
  | prevWord, c :: t =>
    (if !prevWord then boostArticleAt (c :: t) else none) <|>
    findBoostArticle (isWordChar c) t

def anyHasSub (content : List Char) (phrases : List (List Char)) : Bool :=
  phrases.any fun p => hasSub content p

/-- Source `_score_boost_by_intent`: intent-cue boost plus the exact
"article N" mention boost. -/
def _score_boost_by_intent (r : VResult) (analysis : Analysis) : ℚ :=
  let content := lowerChars r.content
  let b1 : ℚ :=
    match analysis.intent with
    | some .definition =>
      if hasSub content (chars "means") || hasSub content (chars "for the purposes of this")
      then 0.05 else 0
    | some .procedural =>
      if anyHasSub content [chars "shall", chars "procedure", chars "steps", chars "application"]
      then 0.05 else 0
    | some .penalty =>
      if anyHasSub content
        [chars "penalty", chars "fine", chars "liable", chars "offence", chars "contravention"]
      then 0.07 else 0
    | some .requirement =>
      if anyHasSub content [chars "must", chars "shall", chars "required", chars "requirements"]
      then 0.04 else 0
    | some .temporal =>
      if anyHasSub content [chars "days", chars "months", chars "within", chars "not later than"]
      then 0.04 else 0
    | none => 0
  let b2 : ℚ :=
    match findBoostArticle false content, analysis.article_num with
    | some g, some a => if upperChars g = upperChars a then 0.1 else 0
    | _, _ => 0
  b1 + b2

/-- Source `_rerank_results_by_intent`: apply boosts clamped to [0, 1],
stable descending sort by the new score. -/
def _rerank_results_by_intent (results : List VResult) (analysis : Analysis) : List VResult :=
  let rescored := results.map fun r =>
    { r with score := max 0 (min 1 (r.score + _score_boost_by_intent r analysis)) }
  sortByKeyDesc (fun r => r.score) rescored

/-- Source `_article_search`: hinted lookup, then the common corpora in
order, then the semantic fallback with a hard filter only for explicitly
named statutes. -/
def _article_search (store : Store) (article_num : List Char) (doc_hint : Option (List Char)) :
    List VResult :=
  let results :=
    match doc_hint with
    | some h => store.get_article article_num (some h)
    | none => []
  let results :=
    if results = [] then
      match doc_hint with
      | none =>
        let r1 := store.get_article article_num (some companiesActCode)
        if r1 ≠ [] then r1 else store.get_article article_num (some code13Code)
      | some _ => results
    else results
  if results = [] then
    let q := chars "Article " ++ article_num ++ chars " Malta Commercial Code or Companies Act"
    let filters :=
      if doc_hint = some companiesActCode ∨ doc_hint = some code13Code then doc_hint else none
    store.search q 5 filters
  else results

/-- The strict-evidence minimum score (`MIN_TOP_SCORE`). -/
def MIN_TOP_SCORE : ℚ := 0.45

/-- Everything `SearchEngine.search` computes before the strict evidence
gate: branch on the analysed query type, run the appropriate search path,
re-rank nonempty semantic results by intent. -/
def searchRaw (store : Store) (analysis : Analysis) (query : List Char) (max_results : Nat) :
    List VResult :=
  if analysis.qtype = QType.article_lookup then
    _article_search store (analysis.article_num.getD []) analysis.doc_hint
  else
    let enhanced := _enhance_query query analysis
    let filters :=
      if analysis.doc_hint_explicit ∧
          (analysis.doc_hint = some companiesActCode ∨ analysis.doc_hint = some code13Code) then
        analysis.doc_hint
      else none
    let results := store.search enhanced max_results filters
    if results ≠ [] then _rerank_results_by_intent results analysis else results

/-- The strict evidence gate of `SearchEngine.search`: drop everything when
there are no results or the top score is below `MIN_TOP_SCORE`. -/
def evidenceGate (results : List VResult) : List VResult :=
  match results with
  | [] => []
  | r :: _ => if r.score < MIN_TOP_SCORE then [] else results

/-- Source `SearchEngine.search`, reduced to its `results` payload (the
query echo and analysis echo of the returned dict carry no logic, and the
AI-overview branch is disabled I/O).  The query analyzer is abstracted into
the `analysis` argument. -/
def search (store : Store) (analysis : Analysis) (query : List Char) (max_results : Nat) :
    List VResult :=
  evidenceGate (searchRaw store analysis query max_results)

end SearchEngine

/-! ## Character and line lemmas

Facts used to prove that the validation-reply field parsers are total:
a marker found in the upper-cased reply is always found in the upper-cased
image of one of the reply's lines, so the `[0]` indexing after the line
filter can never raise. -/

theorem toUpper_eq_newline_iff (c : Char) : c.toUpper = '\n' ↔ c = '\n' := by
  constructor
  · intro h
    by_contra hne
    unfold Char.toUpper at h
    simp only at h
    split at h
    · rename_i hcond
      obtain ⟨h1, h2⟩ := hcond
      have h1' : 97 ≤ c.toNat := h1
      have h2' : c.toNat ≤ 122 := h2
      generalize hg : c.toNat = m at h h1' h2'
      interval_cases m <;> exact absurd h (by decide)
    · exact hne h
  · intro h; subst h; decide

theorem splitOn_exists_cons (sep : Char) (l : List Char) :
    ∃ h ts, splitOn sep l = h :: ts := by
  cases l with
  | nil => exact ⟨[], [], rfl⟩
  | cons c t =>
    by_cases hc : c = sep
    · exact ⟨[], splitOn sep t, by simp [splitOn, hc]⟩
    · obtain ⟨h, ts, hht⟩ := splitOn_exists_cons sep t
      exact ⟨c :: h, ts, by simp [splitOn, hc, hht]⟩

theorem splitOn_upper (l : List Char) :
    splitOn '\n' (upperChars l) = (splitOn '\n' l).map upperChars := by
  induction l with
  | nil => simp [splitOn, upperChars]
  | cons c t ih =>
    by_cases hc : c = '\n'
    · subst hc
      have hup : Char.toUpper '\n' = '\n' := by decide
      show splitOn '\n' (Char.toUpper '\n' :: upperChars t) = _
      rw [hup, splitOn, if_pos rfl, splitOn, if_pos rfl, List.map_cons, ih]
      rfl
    · have hcu : Char.toUpper c ≠ '\n' := fun h => hc ((toUpper_eq_newline_iff c).mp h)
      obtain ⟨h, ts, hht⟩ := splitOn_exists_cons '\n' t
      have ih' := ih
      rw [hht] at ih'
      show splitOn '\n' (Char.toUpper c :: upperChars t) = _
      rw [splitOn, if_neg hcu, splitOn, if_neg hc, hht, ih']
      rfl

theorem hasSub_of_beginsWith {l m : List Char} (h : beginsWith l m = true) :
    hasSub l m = true := by
  cases l with
  | nil => exact h
  | cons c t => simp [hasSub, h]

theorem beginsWith_head_line (sep : Char) :
    ∀ (m t : List Char), beginsWith t m = true → sep ∉ m →
      ∃ h ts, splitOn sep t = h :: ts ∧ beginsWith h m = true := by
  intro m
  induction m with
  | nil =>
    intro t _ _
    obtain ⟨h, ts, hht⟩ := splitOn_exists_cons sep t
    exact ⟨h, ts, hht, by cases h <;> rfl⟩
  | cons c mt ih =>
    intro t hb hnm
    cases t with
    | nil => simp [beginsWith] at hb
    | cons c' t' =>
      simp only [beginsWith, Bool.and_eq_true, beq_iff_eq] at hb
      obtain ⟨rfl, hb'⟩ := hb
      have hcsep : c' ≠ sep := fun h => hnm (h ▸ List.mem_cons_self c' mt)
      obtain ⟨h, ts, hht, hbh⟩ := ih t' hb' (fun hm => hnm (List.mem_cons_of_mem _ hm))
      refine ⟨c' :: h, ts, ?_, ?_⟩
      · rw [splitOn, if_neg hcsep, hht]
      · simp [beginsWith, hbh]

theorem hasSub_line (sep : Char) :
    ∀ (s m : List Char), hasSub s m = true → sep ∉ m →
      ∃ l ∈ splitOn sep s, hasSub l m = true := by
  intro s
  induction s with
  | nil =>
    intro m h _
    exact ⟨[], by simp [splitOn], h⟩
  | cons c t ih =>
    intro m h hnm
    simp only [hasSub, Bool.or_eq_true] at h
    rcases h with hb | hs
    · by_cases hc : c = sep
      · cases m with
        | nil =>
          refine ⟨[], ?_, rfl⟩
          rw [splitOn, if_pos hc]
          exact List.mem_cons_self _ _
        | cons cm mt =>
          simp only [beginsWith, Bool.and_eq_true, beq_iff_eq] at hb
          exact absurd (hb.1.symm.trans hc) (fun h => hnm (h ▸ List.mem_cons_self cm mt))
      · obtain ⟨h0, ts, hht, hbh⟩ := beginsWith_head_line sep m (c :: t) hb hnm
        exact ⟨h0, by rw [hht]; exact List.mem_cons_self _ _, hasSub_of_beginsWith hbh⟩
    · obtain ⟨l, hl, hsl⟩ := ih m hs hnm
      by_cases hc : c = sep
      · refine ⟨l, ?_, hsl⟩
        rw [splitOn, if_pos hc]
        exact List.mem_cons_of_mem _ hl
      · obtain ⟨h0, ts, hht⟩ := splitOn_exists_cons sep t
        rw [hht] at hl
        rcases List.mem_cons.mp hl with rfl | hl'
        · refine ⟨c :: l, ?_, ?_⟩
          · rw [splitOn, if_neg hc, hht]
            exact List.mem_cons_self _ _
          · simp [hasSub, hsl]
        · refine ⟨l, ?_, hsl⟩
          rw [splitOn, if_neg hc, hht]
          exact List.mem_cons_of_mem _ hl'

theorem marker_line (s m : List Char) (hm : hasSub (upperChars s) m = true)
    (hn : '\n' ∉ m) :
    ∃ l ∈ splitOn '\n' s, hasSub (upperChars l) m = true := by
  obtain ⟨L, hL, hsub⟩ := hasSub_line '\n' (upperChars s) m hm hn
  rw [splitOn_upper] at hL
  obtain ⟨l, hl, rfl⟩ := List.mem_map.mp hL
  exact ⟨l, hl, hsub⟩

theorem parse_grounded_isSome (r : List Char) : (LegalCrag.parse_grounded r).isSome = true := by
  unfold LegalCrag.parse_grounded
  by_cases hm : hasSub (upperChars r) (chars "GROUNDED:") = true
  · rw [if_pos hm]
    obtain ⟨l, hl, hsub⟩ := marker_line r (chars "GROUNDED:") hm (by decide)
    have hmem : l ∈ (splitOn '\n' r).filter
        (fun line => hasSub (upperChars line) (chars "GROUNDED:")) :=
      List.mem_filter.mpr ⟨hl, hsub⟩
    cases hf : (splitOn '\n' r).filter
        (fun line => hasSub (upperChars line) (chars "GROUNDED:")) with
    | nil => rw [hf] at hmem; exact absurd hmem (List.not_mem_nil l)
    | cons a as => rfl
  · rw [if_neg hm]; rfl

theorem parse_confidence_isSome (r : List Char) :
    (LegalCrag.parse_confidence r).isSome = true := by
  unfold LegalCrag.parse_confidence
  by_cases hm : hasSub (upperChars r) (chars "CONFIDENCE:") = true
  · rw [if_pos hm]
    obtain ⟨l, hl, hsub⟩ := marker_line r (chars "CONFIDENCE:") hm (by decide)
    have hmem : l ∈ (splitOn '\n' r).filter
        (fun line => hasSub (upperChars line) (chars "CONFIDENCE:")) :=
      List.mem_filter.mpr ⟨hl, hsub⟩
    cases hf : (splitOn '\n' r).filter
        (fun line => hasSub (upperChars line) (chars "CONFIDENCE:")) with
    | nil => rw [hf] at hmem; exact absurd hmem (List.not_mem_nil l)
    | cons a as =>
      show (match findNumber a with
        | some q => some q
        | none => some (0.5 : ℚ)).isSome = true
      cases findNumber a <;> rfl
  · rw [if_neg hm]; rfl

/-- Claim C7.  Parsing the validation oracle's reply never raises (both
field parsers always return a value): a reply containing no GROUNDED
marker parses to `grounded = false` (absence is never treated as
grounded), and a reply containing no parsable CONFIDENCE value — no
marker at all, or a first marker line with no number in it — parses to
the default confidence 0.5. -/
theorem C7_parse_never_raises :
    (∀ r : List Char, (LegalCrag.parse_grounded r).isSome = true ∧
      (LegalCrag.parse_confidence r).isSome = true) ∧
    (∀ r : List Char, hasSub (upperChars r) (chars "GROUNDED:") = false →
      LegalCrag.parse_grounded r = some false) ∧
    (∀ r : List Char, hasSub (upperChars r) (chars "CONFIDENCE:") = false →
      LegalCrag.parse_confidence r = some 0.5) ∧
    (∀ (r l : List Char) (ls : List (List Char)),
      (splitOn '\n' r).filter
          (fun line => hasSub (upperChars line) (chars "CONFIDENCE:")) = l :: ls →
      findNumber l = none → LegalCrag.parse_confidence r = some 0.5) := by
  refine ⟨fun r => ⟨parse_grounded_isSome r, parse_confidence_isSome r⟩, ?_, ?_, ?_⟩
  · intro r hno
    unfold LegalCrag.parse_grounded
    rw [if_neg (by simp [hno])]
  · intro r hno
    unfold LegalCrag.parse_confidence
    rw [if_neg (by simp [hno])]
  · intro r l ls hfilter hnum
    unfold LegalCrag.parse_confidence
    by_cases hm : hasSub (upperChars r) (chars "CONFIDENCE:") = true
    · rw [if_pos hm, hfilter]
      show (match findNumber l with
        | some q => some q
        | none => some (0.5 : ℚ)) = some 0.5
      rw [hnum]
    · rw [if_neg hm]

/-- Witness for C7 at concrete replies. -/
theorem C7_witness :
    (LegalCrag.parse_grounded (chars "mystery reply")).isSome = true ∧
    LegalCrag.parse_grounded (chars "mystery reply") = some false ∧
    LegalCrag.parse_confidence (chars "mystery reply") = some 0.5 ∧
    LegalCrag.parse_confidence (chars "CONFIDENCE: none given") = some 0.5 :=
  ⟨(C7_parse_never_raises.1 (chars "mystery reply")).1,
   C7_parse_never_raises.2.1 _ (by decide),
   C7_parse_never_raises.2.2.1 _ (by decide),
   C7_parse_never_raises.2.2.2 (chars "CONFIDENCE: none given")
     (chars "CONFIDENCE: none given") [] (by decide) (by decide)⟩

/-! ## Validation pipeline lemmas (claims C1, C10) -/

namespace LegalCrag

/-- Destructuring of a successful `validate_answer` run into its parsed
components. -/
theorem validate_answer_eq (oracle : Oracle) (answer : List Char) (docs : List Doc)
    (v : ValidationResult) (h : validate_answer oracle answer docs = some v) :
    ∃ g conf iss,
      parse_grounded (oracle (validation_prompt (valDocsText docs) answer)) = some g ∧
      parse_confidence (oracle (validation_prompt (valDocsText docs) answer)) = some conf ∧
      parse_issues (oracle (validation_prompt (valDocsText docs) answer)) = some iss ∧
      v = ⟨g, min conf (check_citations answer docs), iss, check_citations answer docs⟩ := by
  unfold validate_answer at h
  dsimp only at h
  cases hg : parse_grounded (oracle (validation_prompt (valDocsText docs) answer)) with
  | none => rw [hg] at h; simp at h
  | some g =>
    rw [hg] at h
    cases hc : parse_confidence (oracle (validation_prompt (valDocsText docs) answer)) with
    | none => rw [hc] at h; simp at h
    | some conf =>
      rw [hc] at h
      cases hi : parse_issues (oracle (validation_prompt (valDocsText docs) answer)) with
      | none => rw [hi] at h; simp at h
      | some iss =>
        rw [hi] at h
        exact ⟨g, conf, iss, rfl, rfl, rfl, (Option.some.inj h).symm⟩

/-- Destructuring of a successful `answer_legal_question` run. -/
theorem answer_legal_question_eq (oracle : Oracle) (question : List Char)
    (docs : List Doc) (resp : CRAGResponse)
    (h : answer_legal_question oracle question docs = some resp) :
    ∃ v, validate_answer oracle
        (generate_answer oracle question (relevantOf docs (grade_documents oracle question docs)))
        (relevantOf docs (grade_documents oracle question docs)) = some v ∧
      resp = { question := question
               answer := if v.confidence < CONFIDENCE_THRESHOLD then
                   lowConfidenceMarker v.confidence ++
                     generate_answer oracle question
                       (relevantOf docs (grade_documents oracle question docs))
                 else
                   generate_answer oracle question
                     (relevantOf docs (grade_documents oracle question docs))
               confidence := v.confidence
               grounded := v.grounded
               relevant_docs := relevantOf docs (grade_documents oracle question docs)
               validation_result := v
               grade_details := grade_documents oracle question docs } := by
  unfold answer_legal_question at h
  dsimp only at h
  cases hv : validate_answer oracle
      (generate_answer oracle question (relevantOf docs (grade_documents oracle question docs)))
      (relevantOf docs (grade_documents oracle question docs)) with
  | none => rw [hv] at h; simp at h
  | some v => rw [hv] at h; exact ⟨v, rfl, (Option.some.inj h).symm⟩

end LegalCrag

theorem matchNumberAt_nonneg (l : List Char) (q : ℚ) (h : matchNumberAt l = some q) :
    0 ≤ q := by
  unfold matchNumberAt at h
  dsimp only at h
  split at h
  · exact absurd h (by simp)
  · obtain rfl := Option.some.inj h
    positivity

theorem findNumber_nonneg : ∀ (l : List Char) (q : ℚ), findNumber l = some q → 0 ≤ q := by
  intro l
  induction l with
  | nil => intro q h; simp [findNumber] at h
  | cons c t ih =>
    intro q h
    rw [findNumber] at h
    cases hm : matchNumberAt (c :: t) with
    | none => rw [hm] at h; exact ih q h
    | some q' =>
      rw [hm] at h
      obtain rfl := Option.some.inj h
      exact matchNumberAt_nonneg _ _ hm

theorem parse_confidence_nonneg (r : List Char) (q : ℚ)
    (h : LegalCrag.parse_confidence r = some q) : 0 ≤ q := by
  unfold LegalCrag.parse_confidence at h
  by_cases hm : hasSub (upperChars r) (chars "CONFIDENCE:") = true
  · rw [if_pos hm] at h
    cases hf : (splitOn '\n' r).filter
        (fun line => hasSub (upperChars line) (chars "CONFIDENCE:")) with
    | nil => rw [hf] at h; exact absurd h (by simp)
    | cons a as =>
      rw [hf] at h
      have h' : (match findNumber a with
          | some q => some q
          | none => some (0.5 : ℚ)) = some q := h
      cases hn : findNumber a with
      | some q' =>
        rw [hn] at h'
        obtain rfl := Option.some.inj h'
        exact findNumber_nonneg a q' hn
      | none =>
        rw [hn] at h'
        obtain rfl := Option.some.inj h'
        norm_num
  · rw [if_neg hm] at h
    obtain rfl := Option.some.inj h
    norm_num

theorem check_citations_nonneg (answer : List Char) (docs : List LegalCrag.Doc) :
    0 ≤ LegalCrag.check_citations answer docs := by
  unfold LegalCrag.check_citations
  dsimp only
  split
  · norm_num
  · positivity

theorem check_citations_le_one (answer : List Char) (docs : List LegalCrag.Doc) :
    LegalCrag.check_citations answer docs ≤ 1 := by
  unfold LegalCrag.check_citations
  dsimp only
  split
  · norm_num
  · rename_i hne
    rw [div_le_one (by exact_mod_cast List.length_pos.mpr hne)]
    exact_mod_cast List.countP_le_length _

/-- Claim C1.  In every validation result the confidence equals
min(the confidence parsed from the validation oracle's reply, the
deterministically computed citation accuracy), and consequently
`final_confidence ≤ citation_accuracy` holds in every pipeline response. -/
theorem C1_final_confidence_min :
    (∀ (oracle : LegalCrag.Oracle) (answer : List Char) (docs : List LegalCrag.Doc)
        (v : LegalCrag.ValidationResult) (conf : ℚ),
      LegalCrag.validate_answer oracle answer docs = some v →
      LegalCrag.parse_confidence
        (oracle (LegalCrag.validation_prompt (LegalCrag.valDocsText docs) answer)) = some conf →
      v.confidence = min conf v.citation_accuracy ∧
      v.citation_accuracy = LegalCrag.check_citations answer docs ∧
      v.confidence ≤ v.citation_accuracy) ∧
    (∀ (oracle : LegalCrag.Oracle) (question : List Char) (docs : List LegalCrag.Doc)
        (resp : LegalCrag.CRAGResponse),
      LegalCrag.answer_legal_question oracle question docs = some resp →
      resp.confidence ≤ resp.validation_result.citation_accuracy) := by
  constructor
  · intro oracle answer docs v conf hv hc
    obtain ⟨g, conf', iss, _, hc', _, rfl⟩ :=
      LegalCrag.validate_answer_eq oracle answer docs v hv
    obtain rfl : conf = conf' := by rw [hc] at hc'; exact Option.some.inj hc'
    exact ⟨rfl, rfl, min_le_right _ _⟩
  · intro oracle question docs resp hr
    obtain ⟨v, hv, rfl⟩ := LegalCrag.answer_legal_question_eq oracle question docs resp hr
    obtain ⟨g, conf, iss, _, _, _, rfl⟩ :=
      LegalCrag.validate_answer_eq oracle _ _ v hv
    exact min_le_right _ _

/-- A concrete oracle whose reply to every prompt is a well-formed
validation answer. -/
def oracleYes : LegalCrag.Oracle :=
  fun _ => chars "GROUNDED: YES\nCONFIDENCE: 0.9\nISSUES: None"

/-- The concrete pipeline response produced by `oracleYes` on question "q"
with no retrieved documents. -/
def respYes : LegalCrag.CRAGResponse :=
  { question := chars "q"
    answer := LegalCrag.lowConfidenceMarker 0.5 ++ LegalCrag.insufficiencyAnswer
    confidence := 0.5
    grounded := true
    relevant_docs := []
    validation_result := ⟨true, 0.5, [], 0.5⟩
    grade_details := [] }

/-- Witness for C1 at a concrete oracle, answer and document list. -/
theorem C1_witness :
    ((⟨true, 0.5, [], 0.5⟩ : LegalCrag.ValidationResult).confidence =
        min (9/10 : ℚ)
          (⟨true, 0.5, [], 0.5⟩ : LegalCrag.ValidationResult).citation_accuracy ∧
      (⟨true, 0.5, [], 0.5⟩ : LegalCrag.ValidationResult).citation_accuracy =
        LegalCrag.check_citations (chars "x") [] ∧
      (⟨true, 0.5, [], 0.5⟩ : LegalCrag.ValidationResult).confidence ≤
        (⟨true, 0.5, [], 0.5⟩ : LegalCrag.ValidationResult).citation_accuracy) ∧
    respYes.confidence ≤ respYes.validation_result.citation_accuracy :=
  ⟨C1_final_confidence_min.1 oracleYes (chars "x") [] ⟨true, 0.5, [], 0.5⟩ (9/10)
      (by decide) (by decide),
   C1_final_confidence_min.2 oracleYes (chars "q") [] respYes (by decide)⟩

/-- Claim C10.  Validation confidences lie in [0, 1]: the oracle-reported
confidence is not clamped at parse time ("CONFIDENCE: 90" parses to 90)
but is nonnegative; the citation accuracy always lies in [0, 1]; and the
minimum of the two therefore lies in [0, 1] in every validation result. -/
theorem C10_confidence_unit_interval :
    LegalCrag.parse_confidence (chars "CONFIDENCE: 90") = some 90 ∧
    (∀ (r : List Char) (q : ℚ), LegalCrag.parse_confidence r = some q → 0 ≤ q) ∧
    (∀ (answer : List Char) (docs : List LegalCrag.Doc),
      0 ≤ LegalCrag.check_citations answer docs ∧
      LegalCrag.check_citations answer docs ≤ 1) ∧
    (∀ (oracle : LegalCrag.Oracle) (answer : List Char) (docs : List LegalCrag.Doc)
        (v : LegalCrag.ValidationResult),
      LegalCrag.validate_answer oracle answer docs = some v →
      0 ≤ v.confidence ∧ v.confidence ≤ 1) := by
  refine ⟨by decide, parse_confidence_nonneg, ?_, ?_⟩
  · exact fun answer docs => ⟨check_citations_nonneg answer docs, check_citations_le_one answer docs⟩
  · intro oracle answer docs v hv
    obtain ⟨g, conf, iss, _, hc, _, rfl⟩ := LegalCrag.validate_answer_eq oracle answer docs v hv
    constructor
    · exact le_min (parse_confidence_nonneg _ conf hc) (check_citations_nonneg answer docs)
    · exact le_trans (min_le_right _ _) (check_citations_le_one answer docs)

/-- Witness for C10 at a concrete oracle, answer and document list. -/
theorem C10_witness :
    (0 : ℚ) ≤ 90 ∧
    (0 ≤ (⟨true, 0.5, [], 0.5⟩ : LegalCrag.ValidationResult).confidence ∧
      (⟨true, 0.5, [], 0.5⟩ : LegalCrag.ValidationResult).confidence ≤ 1) :=
  ⟨C10_confidence_unit_interval.2.1 (chars "CONFIDENCE: 90") 90 (by decide),
   C10_confidence_unit_interval.2.2.2 oracleYes (chars "x") [] ⟨true, 0.5, [], 0.5⟩ (by decide)⟩

/-! ## Citation verifier (claim C6) -/

/-- Pointwise agreement between the implementation's match test and the
declarative "case-insensitive substrings of one another in either
direction against some acceptable citation" characterization. -/
theorem citationMatches_eq_decide (avail : List (List Char)) (cit : List Char) :
    LegalCrag.citationMatches avail cit =
      decide (∃ a ∈ avail,
        hasSub (lowerChars (pyStrip cit)) (lowerChars a) = true ∨
        hasSub (lowerChars a) (lowerChars (pyStrip cit)) = true) := by
  unfold LegalCrag.citationMatches
  dsimp only
  cases ha : avail.any fun a =>
      hasSub (lowerChars (pyStrip cit)) (lowerChars a) ||
        hasSub (lowerChars a) (lowerChars (pyStrip cit)) with
  | false =>
    symm
    simp only [List.any_eq_false, Bool.or_eq_true, not_or] at ha
    simp only [decide_eq_false_iff_not]
    rintro ⟨a, hmem, hor⟩
    rcases hor with h1 | h1
    · exact absurd h1 (ha a hmem).1
    · exact absurd h1 (ha a hmem).2
  | true =>
    symm
    rw [decide_eq_true_iff]
    obtain ⟨a, hmem, hab⟩ := List.any_eq_true.mp ha
    rcases Bool.or_eq_true_iff.mp hab with h1 | h1
    · exact ⟨a, hmem, Or.inl h1⟩
    · exact ⟨a, hmem, Or.inr h1⟩

/-- Claim C6.  The citation verifier returns matched/total over the
bracketed substrings extracted from the answer, where an extracted
substring (whitespace-stripped, as the source strips it before testing)
matches iff it and some acceptable citation are case-insensitive
substrings of one another in either direction; with no bracketed
substrings it returns exactly 0.5. -/
theorem C6_citation_verifier :
    ∀ (answer : List Char) (docs : List LegalCrag.Doc),
      (LegalCrag.extractCitations answer = [] →
        LegalCrag.check_citations answer docs = 0.5) ∧
      (LegalCrag.extractCitations answer ≠ [] →
        LegalCrag.check_citations answer docs =
          (((LegalCrag.extractCitations answer).countP fun cit =>
              decide (∃ a ∈ LegalCrag.availableCitations docs,
                hasSub (lowerChars (pyStrip cit)) (lowerChars a) = true ∨
                hasSub (lowerChars a) (lowerChars (pyStrip cit)) = true)) : ℚ) /
            ((LegalCrag.extractCitations answer).length : ℚ)) := by
  intro answer docs
  constructor
  · intro h
    unfold LegalCrag.check_citations
    dsimp only
    rw [if_pos h]
  · intro h
    unfold LegalCrag.check_citations
    dsimp only
    rw [if_neg h]
    have heq : LegalCrag.citationMatches (LegalCrag.availableCitations docs) =
        fun cit => decide (∃ a ∈ LegalCrag.availableCitations docs,
          hasSub (lowerChars (pyStrip cit)) (lowerChars a) = true ∨
          hasSub (lowerChars a) (lowerChars (pyStrip cit)) = true) :=
      funext fun cit => citationMatches_eq_decide _ cit
    rw [heq]

/-- A concrete evidence document for the citation-verifier witnesses. -/
def docW : LegalCrag.Doc :=
  { id := some (chars "c1")
    content := some (chars "The text.")
    citation := some (chars "Companies Act (Cap. 386) Art. 5")
    article := some (chars "5") }

/-- Witness for C6 at a concrete answer and document list. -/
theorem C6_witness :
    LegalCrag.check_citations (chars "no brackets at all") [docW] = 0.5 ∧
    LegalCrag.check_citations (chars "see [Article 5] and [made up]") [docW] =
      (((LegalCrag.extractCitations (chars "see [Article 5] and [made up]")).countP fun cit =>
          decide (∃ a ∈ LegalCrag.availableCitations [docW],
            hasSub (lowerChars (pyStrip cit)) (lowerChars a) = true ∨
            hasSub (lowerChars a) (lowerChars (pyStrip cit)) = true)) : ℚ) /
        ((LegalCrag.extractCitations (chars "see [Article 5] and [made up]")).length : ℚ) :=
  ⟨(C6_citation_verifier (chars "no brackets at all") [docW]).1 (by decide),
   (C6_citation_verifier (chars "see [Article 5] and [made up]") [docW]).2 (by decide)⟩

/-! ## Empty evidence set and threshold stage (claims C5, C8) -/

/-- Counterexample for C5 as stated: on an empty evidence set the
pipeline's returned answer is not the fixed insufficiency string — the
validation confidence is min(parsed, 0.5) ≤ 0.5 < 0.85, so the threshold
stage always prefixes the low-confidence marker. -/
theorem C5_cex :
    LegalCrag.answer_legal_question oracleYes (chars "q") [] = some respYes ∧
    respYes.relevant_docs = [] ∧
    respYes.answer ≠ LegalCrag.insufficiencyAnswer :=
  ⟨by decide, by decide, by decide⟩

/-- Claim C5, amended.  If grading leaves the evidence set empty, the
generation stage short-circuits to the fixed insufficiency answer without
consulting the oracle (the result is oracle-independent), and the citation
accuracy computed for that fixed answer is 0.5; the pipeline's returned
answer is the fixed answer with the low-confidence prefix, the final
confidence being capped at 0.5. -/
theorem C5_empty_evidence :
    (∀ (oracle : LegalCrag.Oracle) (question : List Char),
      LegalCrag.generate_answer oracle question [] = LegalCrag.insufficiencyAnswer) ∧
    (∀ (o1 o2 : LegalCrag.Oracle) (question : List Char),
      LegalCrag.generate_answer o1 question [] = LegalCrag.generate_answer o2 question []) ∧
    (∀ docs : List LegalCrag.Doc,
      LegalCrag.check_citations LegalCrag.insufficiencyAnswer docs = 0.5) ∧
    (∀ (oracle : LegalCrag.Oracle) (question : List Char) (docs : List LegalCrag.Doc)
        (resp : LegalCrag.CRAGResponse),
      LegalCrag.answer_legal_question oracle question docs = some resp →
      resp.relevant_docs = [] →
      resp.answer = LegalCrag.lowConfidenceMarker resp.confidence ++
          LegalCrag.insufficiencyAnswer ∧
      resp.confidence ≤ 0.5 ∧
      resp.validation_result.citation_accuracy = 0.5) := by
  have hgen : ∀ (oracle : LegalCrag.Oracle) (question : List Char),
      LegalCrag.generate_answer oracle question [] = LegalCrag.insufficiencyAnswer := by
    intro oracle question
    unfold LegalCrag.generate_answer
    rw [if_pos rfl]
  have hcheck : ∀ docs : List LegalCrag.Doc,
      LegalCrag.check_citations LegalCrag.insufficiencyAnswer docs = 0.5 := by
    intro docs
    unfold LegalCrag.check_citations
    dsimp only
    rw [if_pos (by decide)]
  refine ⟨hgen, fun o1 o2 q => (hgen o1 q).trans (hgen o2 q).symm, hcheck, ?_⟩
  intro oracle question docs resp hr hrel
  obtain ⟨v, hv, rfl⟩ := LegalCrag.answer_legal_question_eq oracle question docs resp hr
  have hrel' : LegalCrag.relevantOf docs (LegalCrag.grade_documents oracle question docs) = [] :=
    hrel
  rw [hrel', hgen oracle question] at hv
  obtain ⟨g, conf, iss, _, _, _, rfl⟩ :=
    LegalCrag.validate_answer_eq oracle LegalCrag.insufficiencyAnswer [] v hv
  have hca : LegalCrag.check_citations LegalCrag.insufficiencyAnswer [] = 0.5 := hcheck []
  have hconf : min conf (LegalCrag.check_citations LegalCrag.insufficiencyAnswer []) ≤ 0.5 := by
    rw [hca]; exact min_le_right _ _
  have hlt : min conf (LegalCrag.check_citations LegalCrag.insufficiencyAnswer []) <
      LegalCrag.CONFIDENCE_THRESHOLD :=
    lt_of_le_of_lt hconf (by norm_num [LegalCrag.CONFIDENCE_THRESHOLD])
  refine ⟨?_, hconf, hca⟩
  show (if (⟨g, min conf _, iss, _⟩ : LegalCrag.ValidationResult).confidence <
      LegalCrag.CONFIDENCE_THRESHOLD then _ else _) = _
  rw [if_pos hlt, hrel', hgen oracle question]

/-- Claim C8.  Below the fixed 0.85 threshold the returned answer is the
generated answer prefixed with the low-confidence marker carrying the
numeric score; at or above it the answer is returned unmodified; in both
cases the response carries every document grade and the full validation
result. -/
theorem C8_threshold_and_audit_trail :
    ∀ (oracle : LegalCrag.Oracle) (question : List Char) (docs : List LegalCrag.Doc)
      (resp : LegalCrag.CRAGResponse),
      LegalCrag.answer_legal_question oracle question docs = some resp →
      (resp.confidence < 0.85 →
        resp.answer = LegalCrag.lowConfidenceMarker resp.confidence ++
          LegalCrag.generate_answer oracle question
            (LegalCrag.relevantOf docs (LegalCrag.grade_documents oracle question docs))) ∧
      (0.85 ≤ resp.confidence →
        resp.answer = LegalCrag.generate_answer oracle question
          (LegalCrag.relevantOf docs (LegalCrag.grade_documents oracle question docs))) ∧
      resp.grade_details = LegalCrag.grade_documents oracle question docs ∧
      (LegalCrag.grade_documents oracle question docs).length = docs.length ∧
      LegalCrag.validate_answer oracle
        (LegalCrag.generate_answer oracle question
          (LegalCrag.relevantOf docs (LegalCrag.grade_documents oracle question docs)))
        (LegalCrag.relevantOf docs (LegalCrag.grade_documents oracle question docs)) =
        some resp.validation_result ∧
      resp.confidence = resp.validation_result.confidence := by
  intro oracle question docs resp hr
  obtain ⟨v, hv, rfl⟩ := LegalCrag.answer_legal_question_eq oracle question docs resp hr
  have hthr : LegalCrag.CONFIDENCE_THRESHOLD = 0.85 := rfl
  refine ⟨?_, ?_, rfl, ?_, hv, rfl⟩
  · intro h
    have h' : v.confidence < LegalCrag.CONFIDENCE_THRESHOLD := by rw [hthr]; exact h
    show (if v.confidence < LegalCrag.CONFIDENCE_THRESHOLD then _ else _) = _
    rw [if_pos h']
  · intro h
    have h' : ¬ v.confidence < LegalCrag.CONFIDENCE_THRESHOLD := by
      rw [hthr]; exact not_lt.mpr h
    show (if v.confidence < LegalCrag.CONFIDENCE_THRESHOLD then _ else _) = _
    rw [if_neg h']
  · unfold LegalCrag.grade_documents
    exact List.length_map _ _

/-- Witness for the amended C5 at a concrete oracle and question. -/
theorem C5_witness :
    respYes.answer = LegalCrag.lowConfidenceMarker respYes.confidence ++
        LegalCrag.insufficiencyAnswer ∧
    respYes.confidence ≤ 0.5 ∧
    respYes.validation_result.citation_accuracy = 0.5 :=
  C5_empty_evidence.2.2.2 oracleYes (chars "q") [] respYes (by decide) (by decide)

/-- The concrete pipeline response produced by `oracleYes` on question "q"
with the single retrieved document `docW` (graded PARTIAL by the fallback
branch, so kept as evidence). -/
def respW8 : LegalCrag.CRAGResponse :=
  { question := chars "q"
    answer := LegalCrag.lowConfidenceMarker 0.5 ++
      chars "GROUNDED: YES\nCONFIDENCE: 0.9\nISSUES: None"
    confidence := 0.5
    grounded := true
    relevant_docs := [docW]
    validation_result := ⟨true, 0.5, [], 0.5⟩
    grade_details := [{ document_id := chars "c1"
                        grade := LegalCrag.GradeLevel.PARTIAL
                        reasoning := chars "GROUNDED: YES\nCONFIDENCE: 0.9\nISSUES: None"
                        confidence := 0.5 }] }

/-- Witness for C8 at a concrete oracle, question and document list. -/
theorem C8_witness :
    respW8.answer = LegalCrag.lowConfidenceMarker respW8.confidence ++
        LegalCrag.generate_answer oracleYes (chars "q")
          (LegalCrag.relevantOf [docW]
            (LegalCrag.grade_documents oracleYes (chars "q") [docW])) ∧
    respW8.grade_details = LegalCrag.grade_documents oracleYes (chars "q") [docW] ∧
    (LegalCrag.grade_documents oracleYes (chars "q") [docW]).length = [docW].length :=
  have h := C8_threshold_and_audit_trail oracleYes (chars "q") [docW] respW8 (by decide)
  ⟨h.1 (by decide), h.2.2.1, h.2.2.2.1⟩

/-! ## Search gate (claim C9) -/

/-- Claim C9.  `SearchEngine.search` returns an empty result list whenever
the pre-gate path produced no candidates or the top-ranked candidate's
score (after intent-based re-ranking on the semantic path) is below 0.45,
on every path — article lookup included; otherwise the results pass
through unchanged. -/
theorem C9_minimum_evidence_gate :
    ∀ (store : SearchEngine.Store) (analysis : SearchEngine.Analysis)
      (query : List Char) (n : Nat),
      (SearchEngine.searchRaw store analysis query n = [] →
        SearchEngine.search store analysis query n = []) ∧
      (∀ (r : VectorStore.VResult) (t : List VectorStore.VResult),
        SearchEngine.searchRaw store analysis query n = r :: t →
        r.score < 0.45 → SearchEngine.search store analysis query n = []) ∧
      (∀ (r : VectorStore.VResult) (t : List VectorStore.VResult),
        SearchEngine.searchRaw store analysis query n = r :: t →
        ¬ r.score < 0.45 → SearchEngine.search store analysis query n = r :: t) := by
  intro store analysis query n
  refine ⟨?_, ?_, ?_⟩
  · intro h
    unfold SearchEngine.search
    rw [h]
    rfl
  · intro r t h hlt
    unfold SearchEngine.search
    rw [h]
    show (if r.score < SearchEngine.MIN_TOP_SCORE then [] else r :: t) = []
    rw [if_pos (show r.score < SearchEngine.MIN_TOP_SCORE from hlt)]
  · intro r t h hge
    unfold SearchEngine.search
    rw [h]
    show (if r.score < SearchEngine.MIN_TOP_SCORE then [] else r :: t) = r :: t
    rw [if_neg (show ¬ r.score < SearchEngine.MIN_TOP_SCORE from hge)]

/-- A stored chunk surfaced with a weak (0.3) score, for the gate witness. -/
def lowRes : VectorStore.VResult :=
  { id := chars "c1"
    content := chars "text"
    metadata := ⟨some (chars "companies_act"), some (chars "5"), some 0,
      chars "Companies Act (Cap. 386) Art. 5"⟩
    score := 0.3
    citation := chars "Companies Act (Cap. 386) Art. 5" }

/-- A store whose article lookup finds `lowRes` and whose semantic search
finds nothing. -/
def storeW : SearchEngine.Store :=
  { search := fun _ _ _ => []
    get_article := fun _ _ => [lowRes] }

/-- A store that finds nothing at all. -/
def storeE : SearchEngine.Store :=
  { search := fun _ _ _ => []
    get_article := fun _ _ => [] }

/-- An article-lookup query analysis, for the gate witness. -/
def analysisW : SearchEngine.Analysis :=
  { qtype := SearchEngine.QType.article_lookup
    intent := none
    keywords := []
    article_num := some (chars "5")
    doc_hint := none
    doc_hint_explicit := false }

/-- Witness for C9: the gate empties a weak-top-score direct article
lookup, and an empty retrieval stays empty. -/
theorem C9_witness :
    SearchEngine.search storeW analysisW (chars "article 5") 5 = [] ∧
    SearchEngine.search storeE analysisW (chars "article 5") 5 = [] :=
  ⟨(C9_minimum_evidence_gate storeW analysisW (chars "article 5") 5).2.1 lowRes []
      (by decide) (by decide),
   (C9_minimum_evidence_gate storeE analysisW (chars "article 5") 5).1 (by decide)⟩

/-! ## De-duplication invariant (claim C2) -/

namespace VectorStore

theorem insertDedup_keys_mem (k : DKey) (r : VResult) :
    ∀ m : List (DKey × VResult), k ∈ m.map (·.1) →
      (insertDedup k r m).map (·.1) = m.map (·.1) := by
  intro m
  induction m with
  | nil => intro h; simp at h
  | cons p t ih =>
    obtain ⟨k0, r0⟩ := p
    intro h
    by_cases hk : k0 = k
    · simp only [insertDedup, if_pos hk, List.map_cons]
      split <;> rfl
    · have h' : k ∈ t.map (·.1) := by
        rcases List.mem_cons.mp h with h0 | h0
        · exact absurd h0.symm hk
        · exact h0
      simp only [insertDedup, if_neg hk, List.map_cons, ih h']

theorem insertDedup_keys_not_mem (k : DKey) (r : VResult) :
    ∀ m : List (DKey × VResult), k ∉ m.map (·.1) →
      (insertDedup k r m).map (·.1) = m.map (·.1) ++ [k] := by
  intro m
  induction m with
  | nil => intro _; rfl
  | cons p t ih =>
    obtain ⟨k0, r0⟩ := p
    intro h
    have hk : k0 ≠ k := fun he => h (List.mem_map.mpr ⟨(k0, r0), List.mem_cons_self _ _, he⟩)
    have h' : k ∉ t.map (·.1) := fun hm => h (by rw [List.map_cons]; exact List.mem_cons_of_mem _ hm)
    simp only [insertDedup, if_neg hk, List.map_cons, ih h', List.cons_append]

theorem insertDedup_mem (k : DKey) (r : VResult) :
    ∀ (m : List (DKey × VResult)) (p : DKey × VResult),
      p ∈ insertDedup k r m → p ∈ m ∨ p = (k, r) := by
  intro m
  induction m with
  | nil => intro p hp; simp [insertDedup] at hp; exact Or.inr hp
  | cons q t ih =>
    obtain ⟨k0, r0⟩ := q
    intro p hp
    by_cases hk : k0 = k
    · simp only [insertDedup, if_pos hk] at hp
      rcases List.mem_cons.mp hp with h0 | h0
      · split at h0
        · exact Or.inr (h0.trans (by rw [hk]))
        · exact Or.inl (h0 ▸ List.mem_cons_self _ _)
      · exact Or.inl (List.mem_cons_of_mem _ h0)
    · simp only [insertDedup, if_neg hk] at hp
      rcases List.mem_cons.mp hp with h0 | h0
      · exact Or.inl (h0 ▸ List.mem_cons_self _ _)
      · rcases ih p h0 with h1 | h1
        · exact Or.inl (List.mem_cons_of_mem _ h1)
        · exact Or.inr h1

theorem insertDedup_dominates_new (k : DKey) (r : VResult) :
    ∀ m : List (DKey × VResult),
      ∃ p ∈ insertDedup k r m, p.1 = k ∧ r.score ≤ p.2.score := by
  intro m
  induction m with
  | nil => exact ⟨(k, r), List.mem_cons_self _ _, rfl, le_refl _⟩
  | cons q t ih =>
    obtain ⟨k0, r0⟩ := q
    by_cases hk : k0 = k
    · refine ⟨(k0, if r0.score < r.score then r else r0), ?_, hk, ?_⟩
      · simp only [insertDedup, if_pos hk]
        split <;> exact List.mem_cons_self _ _
      · split
        · exact le_refl _
        · rename_i hlt; exact le_of_not_lt hlt
    · obtain ⟨p, hp, hpk, hps⟩ := ih
      exact ⟨p, by simp only [insertDedup, if_neg hk]; exact List.mem_cons_of_mem _ hp, hpk, hps⟩

theorem insertDedup_dominates_old (k : DKey) (r : VResult) :
    ∀ (m : List (DKey × VResult)) (q : DKey × VResult), q ∈ m →
      ∃ p ∈ insertDedup k r m, p.1 = q.1 ∧ q.2.score ≤ p.2.score := by
  intro m
  induction m with
  | nil => intro q hq; simp at hq
  | cons q0 t ih =>
    obtain ⟨k0, r0⟩ := q0
    intro q hq
    by_cases hk : k0 = k
    · rcases List.mem_cons.mp hq with rfl | hq'
      · refine ⟨(k0, if r0.score < r.score then r else r0), ?_, rfl, ?_⟩
        · simp only [insertDedup, if_pos hk]
          split <;> exact List.mem_cons_self _ _
        · split
          · rename_i hlt; exact le_of_lt hlt
          · exact le_refl _
      · refine ⟨q, ?_, rfl, le_refl _⟩
        simp only [insertDedup, if_pos hk]
        exact List.mem_cons_of_mem _ hq'
    · rcases List.mem_cons.mp hq with rfl | hq'
      · refine ⟨(k0, r0), ?_, rfl, le_refl _⟩
        simp only [insertDedup, if_neg hk]
        exact List.mem_cons_self _ _
      · obtain ⟨p, hp, hpk, hps⟩ := ih q hq'
        refine ⟨p, ?_, hpk, hps⟩
        simp only [insertDedup, if_neg hk]
        exact List.mem_cons_of_mem _ hp

/-- Invariant of the `article_map` fold of `_deduplicate_results`: keys are
distinct, every stored value comes from the processed prefix and carries
its own key, and every processed result is dominated by the entry stored
under its key. -/
def DedupInv (processed : List VResult) (m : List (DKey × VResult)) : Prop :=
  (m.map (·.1)).Nodup ∧
  (∀ p ∈ m, p.1 = dedupKey p.2 ∧ p.2 ∈ processed) ∧
  (∀ s ∈ processed, ∃ p ∈ m, p.1 = dedupKey s ∧ s.score ≤ p.2.score)

theorem dedupStep_inv (processed : List VResult) (r : VResult)
    (m : List (DKey × VResult)) (h : DedupInv processed m) :
    DedupInv (processed ++ [r]) (insertDedup (dedupKey r) r m) := by
  obtain ⟨hA, hB, hC⟩ := h
  refine ⟨?_, ?_, ?_⟩
  · by_cases hk : dedupKey r ∈ m.map (·.1)
    · rw [insertDedup_keys_mem _ _ _ hk]; exact hA
    · rw [insertDedup_keys_not_mem _ _ _ hk]
      rw [List.nodup_append]
      exact ⟨hA, List.nodup_singleton _, fun a ha hb => hk ((List.mem_singleton.mp hb) ▸ ha)⟩
  · intro p hp
    rcases insertDedup_mem _ _ _ p hp with h0 | h0
    · exact ⟨(hB p h0).1, List.mem_append_left _ (hB p h0).2⟩
    · subst h0
      exact ⟨rfl, List.mem_append_right _ (List.mem_singleton_self _)⟩
  · intro s hs
    rcases List.mem_append.mp hs with h0 | h0
    · obtain ⟨q, hq, hqk, hqs⟩ := hC s h0
      obtain ⟨p, hp, hpk, hps⟩ := insertDedup_dominates_old (dedupKey r) r m q hq
      exact ⟨p, hp, hpk.trans hqk, le_trans hqs hps⟩
    · rw [List.mem_singleton.mp h0]
      exact insertDedup_dominates_new (dedupKey r) r m

theorem dedupFold_inv :
    ∀ (rs processed : List VResult) (m : List (DKey × VResult)),
      DedupInv processed m →
      DedupInv (processed ++ rs)
        (rs.foldl (fun m r => insertDedup (dedupKey r) r m) m) := by
  intro rs
  induction rs with
  | nil => intro processed m h; simpa using h
  | cons r rs ih =>
    intro processed m h
    have h1 := dedupStep_inv processed r m h
    have h2 := ih (processed ++ [r]) _ h1
    simpa [List.append_assoc] using h2

theorem deduplicate_results_inv (rs : List VResult) :
    DedupInv rs (rs.foldl (fun m r => insertDedup (dedupKey r) r m) []) := by
  have h0 : DedupInv [] ([] : List (DKey × VResult)) := by
    refine ⟨List.nodup_nil, ?_, ?_⟩ <;> intro p hp <;> simp at hp
  simpa using dedupFold_inv rs [] [] h0

end VectorStore

/-- Counterexample for C2 as stated: the direct article-lookup path of
`_process_results` returns every chunk of the looked-up article, so two
candidates with the same (doc_code, article) key can be returned. -/
theorem C2_cex :
    ¬ ((VectorStore._process_results
        [⟨chars "c1", chars "text1",
           ⟨some (chars "companies_act"), some (chars "5"), some 0,
            chars "Companies Act (Cap. 386) Art. 5"⟩⟩,
         ⟨chars "c2", chars "text2",
           ⟨some (chars "companies_act"), some (chars "5"), some 1,
            chars "Companies Act (Cap. 386) Art. 5"⟩⟩]
        [⟨chars "c1", chars "text1",
          ⟨some (chars "companies_act"), some (chars "5"), some 0,
           chars "Companies Act (Cap. 386) Art. 5"⟩, 1⟩]
        (chars "article 5") 10).map VectorStore.dedupKey).Nodup := by
  decide

/-- Claim C2, amended.  `_deduplicate_results` never returns two candidates
with the same (doc_code, article) compound key, and within each key group
the kept candidate is one of the inputs with the maximal score; the
invariant holds for the semantic search path (which always funnels through
`_deduplicate_results`), but not for the direct article-lookup path, which
returns all stored chunks of the article (see the counterexample). -/
theorem C2_dedup_invariant :
    (∀ rs : List VectorStore.VResult,
      ((VectorStore._deduplicate_results rs).map VectorStore.dedupKey).Nodup ∧
      (∀ r ∈ VectorStore._deduplicate_results rs, r ∈ rs ∧
        ∀ s ∈ rs, VectorStore.dedupKey s = VectorStore.dedupKey r →
          s.score ≤ r.score)) ∧
    (∀ (entries : List VectorStore.VEntry) (raw : List VectorStore.RawItem)
        (query : List Char) (n : Nat),
      VectorStore.articleQueryMatch (lowerChars query) = none →
      ((VectorStore._process_results entries raw query n).map
        VectorStore.dedupKey).Nodup) := by
  have main : ∀ rs : List VectorStore.VResult,
      ((VectorStore._deduplicate_results rs).map VectorStore.dedupKey).Nodup ∧
      (∀ r ∈ VectorStore._deduplicate_results rs, r ∈ rs ∧
        ∀ s ∈ rs, VectorStore.dedupKey s = VectorStore.dedupKey r →
          s.score ≤ r.score) := by
    intro rs
    obtain ⟨hA, hB, hC⟩ := VectorStore.deduplicate_results_inv rs
    constructor
    · unfold VectorStore._deduplicate_results
      have hmapeq :
          ((rs.foldl (fun m r => VectorStore.insertDedup (VectorStore.dedupKey r) r m)
            []).map (·.2)).map VectorStore.dedupKey =
          (rs.foldl (fun m r => VectorStore.insertDedup (VectorStore.dedupKey r) r m)
            []).map (·.1) := by
        rw [List.map_map]
        apply List.map_congr_left
        intro p hp
        exact ((hB p hp).1).symm
      rw [hmapeq]
      exact hA
    · intro r hr
      obtain ⟨p, hp, hpr⟩ := List.mem_map.mp hr
      constructor
      · exact hpr ▸ (hB p hp).2
      · intro s hs hkey
        obtain ⟨q, hq, hqk, hqs⟩ := hC s hs
        have hq1 : q.1 = VectorStore.dedupKey r := hqk.trans hkey
        have hp1 : p.1 = VectorStore.dedupKey r := ((hB p hp).1).trans (by rw [hpr])
        have hqp : q = p :=
          List.inj_on_of_nodup_map hA hq hp (hq1.trans hp1.symm)
        rw [← hpr, ← hqp]
        exact hqs
  refine ⟨main, ?_⟩
  intro entries raw query n hart
  unfold VectorStore._process_results
  by_cases hraw : raw = []
  · rw [if_pos hraw]; exact List.nodup_nil
  · rw [if_neg hraw]
    dsimp only
    rw [hart]
    dsimp only
    exact List.Nodup.sublist ((List.take_sublist n _).map VectorStore.dedupKey) (main _).1

/-- Two chunks of the same provision with different scores, for the C2
witness. -/
def resA : VectorStore.VResult :=
  { id := chars "a"
    content := chars "text a"
    metadata := ⟨some (chars "companies_act"), some (chars "5"), some 0,
      chars "Companies Act (Cap. 386) Art. 5"⟩
    score := 0.6
    citation := chars "Companies Act (Cap. 386) Art. 5" }

def resB : VectorStore.VResult :=
  { id := chars "b"
    content := chars "text b"
    metadata := ⟨some (chars "companies_act"), some (chars "5"), some 1,
      chars "Companies Act (Cap. 386) Art. 5"⟩
    score := 0.8
    citation := chars "Companies Act (Cap. 386) Art. 5" }

/-- Witness for the amended C2 at concrete candidate lists. -/
theorem C2_witness :
    ((VectorStore._deduplicate_results [resA, resB]).map VectorStore.dedupKey).Nodup ∧
    (resB ∈ [resA, resB] ∧ ∀ s ∈ [resA, resB],
      VectorStore.dedupKey s = VectorStore.dedupKey resB → s.score ≤ resB.score) ∧
    ((VectorStore._process_results []
        [⟨chars "a", chars "text a",
          ⟨some (chars "companies_act"), some (chars "5"), some 0,
           chars "Companies Act (Cap. 386) Art. 5"⟩, 1⟩]
        (chars "penalty for fraud") 10).map VectorStore.dedupKey).Nodup :=
  ⟨(C2_dedup_invariant.1 [resA, resB]).1,
   (C2_dedup_invariant.1 [resA, resB]).2 resB (by decide),
   C2_dedup_invariant.2 []
     [⟨chars "a", chars "text a",
       ⟨some (chars "companies_act"), some (chars "5"), some 0,
        chars "Companies Act (Cap. 386) Art. 5"⟩, 1⟩]
     (chars "penalty for fraud") 10 (by decide)⟩

/-! ## Segmentation invariant (claim C3) -/

namespace DocProcessor

/-- Ordering value of an extracted article. -/
def val10 (a : Article) : Int := article_numeric_value10 a.article

/-- Invariant of the accept/reject scan state: accepted articles strictly
increase, all lie at or below `prev_val`, labels are distinct and all
recorded in `seen_ids`. -/
def ScanInv (st : ScanState) : Prop :=
  List.Chain' (fun a b => val10 a < val10 b) st.articles ∧
  (∀ a ∈ st.articles, val10 a ≤ st.prev_val) ∧
  (st.articles.map (·.article)).Nodup ∧
  (∀ a ∈ st.articles, a.article ∈ st.seen_ids)

theorem acceptStep_inv (pp : List (Nat × Nat)) (st : ScanState) (c : Cand)
    (h : ScanInv st) : ScanInv (acceptStep pp st c) := by
  obtain ⟨h1, h2, h3, h4⟩ := h
  unfold acceptStep
  dsimp only
  split
  · exact ⟨h1, h2, h3, h4⟩
  · rename_i hrange
    split
    · exact ⟨h1, h2, h3, h4⟩
    · rename_i hmono
      split
      · exact ⟨h1, h2, h3, h4⟩
      · rename_i hclean
        split
        · exact ⟨h1, h2, h3, h4⟩
        · rename_i hseen
          have hlt : st.prev_val < article_numeric_value10 (normalize_article_id c.label) :=
            lt_of_not_ge fun hge => hmono hge
          unfold ScanInv
          dsimp only
          refine ⟨?_, ?_, ?_, ?_⟩
          · rw [List.chain'_append]
            refine ⟨h1, List.chain'_singleton _, ?_⟩
            intro x hx y hy
            have hx' : x ∈ st.articles := List.mem_of_mem_getLast? hx
            simp only [List.head?_cons, Option.mem_def, Option.some.injEq] at hy
            subst hy
            exact lt_of_le_of_lt (h2 x hx') hlt
          · intro a ha
            rcases List.mem_append.mp ha with ha' | ha'
            · exact le_of_lt (lt_of_le_of_lt (h2 a ha') hlt)
            · rw [List.mem_singleton.mp ha']
              exact le_refl _
          · rw [List.map_append, List.nodup_append]
            refine ⟨h3, List.nodup_singleton _, ?_⟩
            intro x hx hy
            rw [List.mem_singleton.mp hy] at hx
            obtain ⟨a, ha, hax⟩ := List.mem_map.mp hx
            have hax' : a.article = normalize_article_id c.label := hax
            exact hseen (hax' ▸ h4 a ha)
          · intro a ha
            rcases List.mem_append.mp ha with ha' | ha'
            · exact List.mem_cons_of_mem _ (h4 a ha')
            · rw [List.mem_singleton.mp ha']
              exact List.mem_cons_self _ _

theorem scanFold_inv (pp : List (Nat × Nat)) :
    ∀ (cands : List Cand) (st : ScanState), ScanInv st →
      ScanInv (cands.foldl (acceptStep pp) st) := by
  intro cands
  induction cands with
  | nil => exact fun st h => h
  | cons c cs ih => exact fun st h => ih _ (acceptStep_inv pp st c h)

end DocProcessor

/-- A stable insertion sort leaves an already weakly sorted list unchanged
(so the stabilising re-sort of `_extract_articles` is the identity on the
strictly increasing list the scan produces). -/
theorem sortByKey_eq_self {α β : Type} [LinearOrder β] (key : α → β) :
    ∀ l : List α, List.Chain' (fun a b => key a ≤ key b) l → sortByKey key l = l := by
  intro l
  induction l with
  | nil => intro _; rfl
  | cons x t ih =>
    intro h
    rw [sortByKey, ih h.tail]
    cases t with
    | nil => rfl
    | cons y t' =>
      rw [insertByKey, if_neg (not_lt.mpr (List.chain'_cons.mp h).1)]

set_option maxHeartbeats 2000000 in
/-- Claim C3.  Provisions returned by segmentation are strictly increasing
by normalized numeric order key and no two share a label, whether or not
the loose fallback pass runs; candidates at or below the previously
accepted key, and candidates beyond the sanity ceiling, are discarded. -/
theorem C3_segmentation_monotonic :
    (∀ (pagePositions : List (Nat × Nat))
        (primaryCands looseCands : List DocProcessor.Cand),
      List.Chain' (fun a b => DocProcessor.article_numeric_value10 a.article <
          DocProcessor.article_numeric_value10 b.article)
        (DocProcessor._extract_articles pagePositions primaryCands looseCands) ∧
      ((DocProcessor._extract_articles pagePositions primaryCands looseCands).map
        (·.article)).Nodup) ∧
    (∀ (pp : List (Nat × Nat)) (st : DocProcessor.ScanState) (c : DocProcessor.Cand),
      DocProcessor.article_numeric_value10 (DocProcessor.normalize_article_id c.label) ≤
        st.prev_val → DocProcessor.acceptStep pp st c = st) ∧
    (∀ (pp : List (Nat × Nat)) (st : DocProcessor.ScanState) (c : DocProcessor.Cand),
      DocProcessor.MAX_ARTICLE10 <
        DocProcessor.article_numeric_value10 (DocProcessor.normalize_article_id c.label) →
      DocProcessor.acceptStep pp st c = st) := by
  refine ⟨?_, ?_, ?_⟩
  · intro pagePositions primaryCands looseCands
    unfold DocProcessor._extract_articles
    dsimp only
    have hinit : DocProcessor.ScanInv ⟨-10, [], []⟩ := by
      refine ⟨List.chain'_nil, ?_, List.nodup_nil, ?_⟩ <;> intro a ha <;> simp at ha
    have h1 := DocProcessor.scanFold_inv (sortByKey (fun sp => sp.1) pagePositions)
      primaryCands _ hinit
    split
    · have h2 := DocProcessor.scanFold_inv (sortByKey (fun sp => sp.1) pagePositions)
        looseCands _ h1
      obtain ⟨hc, _, hn, _⟩ := h2
      have hc' : List.Chain' (fun a b : DocProcessor.Article =>
          DocProcessor.article_numeric_value10 a.article ≤
            DocProcessor.article_numeric_value10 b.article) _ :=
        List.Chain'.imp (fun a b hab => le_of_lt hab) hc
      rw [sortByKey_eq_self (fun a : DocProcessor.Article =>
        DocProcessor.article_numeric_value10 a.article) _ hc']
      exact ⟨hc, hn⟩
    · obtain ⟨hc, _, hn, _⟩ := h1
      exact ⟨hc, hn⟩
  · intro pp st c h
    unfold DocProcessor.acceptStep
    dsimp only
    by_cases hA : DocProcessor.article_numeric_value10 (DocProcessor.normalize_article_id
        c.label) ≤ 0 ∨ DocProcessor.MAX_ARTICLE10 <
        DocProcessor.article_numeric_value10 (DocProcessor.normalize_article_id c.label)
    · rw [if_pos hA]
    · rw [if_neg hA, if_pos h]
  · intro pp st c h
    unfold DocProcessor.acceptStep
    dsimp only
    rw [if_pos (Or.inr h)]

/-- Witness for C3 at a concrete document: candidates "5", then a stray
"3" (rejected as non-monotonic), then "5A", then out-of-range "600". -/
theorem C3_witness :
    (List.Chain' (fun a b => DocProcessor.article_numeric_value10 a.article <
        DocProcessor.article_numeric_value10 b.article)
      (DocProcessor._extract_articles [(0, 1)]
        [⟨chars "5", chars "first text", 0⟩, ⟨chars "3", chars "stray", 4⟩,
         ⟨chars "5A", chars "second text", 9⟩, ⟨chars "600", chars "big", 20⟩] []) ∧
      ((DocProcessor._extract_articles [(0, 1)]
        [⟨chars "5", chars "first text", 0⟩, ⟨chars "3", chars "stray", 4⟩,
         ⟨chars "5A", chars "second text", 9⟩, ⟨chars "600", chars "big", 20⟩] []).map
        (·.article)).Nodup) ∧
    DocProcessor.acceptStep [] ⟨100, [], []⟩ ⟨chars "5", chars "t", 0⟩ = ⟨100, [], []⟩ ∧
    DocProcessor.acceptStep [] ⟨-10, [], []⟩ ⟨chars "600", chars "t", 0⟩ = ⟨-10, [], []⟩ :=
  ⟨C3_segmentation_monotonic.1 [(0, 1)]
      [⟨chars "5", chars "first text", 0⟩, ⟨chars "3", chars "stray", 4⟩,
       ⟨chars "5A", chars "second text", 9⟩, ⟨chars "600", chars "big", 20⟩] [],
   C3_segmentation_monotonic.2.1 [] ⟨100, [], []⟩ ⟨chars "5", chars "t", 0⟩ (by decide),
   C3_segmentation_monotonic.2.2 [] ⟨-10, [], []⟩ ⟨chars "600", chars "t", 0⟩ (by decide)⟩

/-! ## Chunking lemmas (claim C4) -/

namespace DocProcessor

theorem chunkLoop_indices (budget overlap : Nat) (tokens : List Nat) :
    ∀ (fuel start idx : Nat),
      (chunkLoopAux budget overlap tokens fuel start idx).map (·.chunk_index) =
        List.range' idx (chunkLoopAux budget overlap tokens fuel start idx).length := by
  intro fuel
  induction fuel with
  | zero => intro start idx; rfl
  | succ f ih =>
    intro start idx
    rw [chunkLoopAux]
    dsimp only
    split
    · split
      · rfl
      · rw [List.map_cons, ih, List.length_cons, List.range'_succ]
    · rfl

theorem chunkLoop_totals (budget overlap : Nat) (tokens : List Nat) :
    ∀ (fuel start idx : Nat) (c : TChunk),
      c ∈ chunkLoopAux budget overlap tokens fuel start idx →
      c.total_chunks = (tokens.length + budget - 1) / budget := by
  intro fuel
  induction fuel with
  | zero => intro start idx c h; simp [chunkLoopAux] at h
  | succ f ih =>
    intro start idx c h
    rw [chunkLoopAux] at h
    dsimp only at h
    split at h
    · split at h
      · rw [List.mem_singleton.mp h]
      · rcases List.mem_cons.mp h with h0 | h0
        · rw [h0]
        · exact ih _ _ c h0
    · simp at h

theorem chunkLoop_sizes (budget overlap : Nat) (tokens : List Nat) :
    ∀ (fuel start idx : Nat) (c : TChunk),
      c ∈ chunkLoopAux budget overlap tokens fuel start idx →
      c.tokens.length ≤ budget := by
  intro fuel
  induction fuel with
  | zero => intro start idx c h; simp [chunkLoopAux] at h
  | succ f ih =>
    intro start idx c h
    rw [chunkLoopAux] at h
    dsimp only at h
    split at h
    · have hsz : ((tokens.drop start).take
          (min (start + budget) tokens.length - start)).length ≤ budget := by
        rw [List.length_take]
        refine le_trans (min_le_left _ _) ?_
        have : min (start + budget) tokens.length ≤ start + budget := min_le_left _ _
        omega
      split at h
      · rw [List.mem_singleton.mp h]
        exact hsz
      · rcases List.mem_cons.mp h with h0 | h0
        · rw [h0]
          exact hsz
        · exact ih _ _ c h0
    · simp at h

theorem chunkLoop_slices (budget overlap : Nat) (tokens : List Nat) (hob : overlap < budget) :
    ∀ (fuel start idx k : Nat) (c : TChunk),
      (chunkLoopAux budget overlap tokens fuel start idx).get? k = some c →
      c.tokens = (tokens.drop (start + k * (budget - overlap))).take
        (min (start + k * (budget - overlap) + budget) tokens.length -
          (start + k * (budget - overlap))) := by
  intro fuel
  induction fuel with
  | zero => intro start idx k c h; simp [chunkLoopAux] at h
  | succ f ih =>
    intro start idx k c h
    rw [chunkLoopAux] at h
    dsimp only at h
    split at h
    · rename_i hstart
      split at h
      · cases k with
        | zero =>
          rw [List.get?_cons_zero] at h
          rw [← Option.some.inj h]
          simp
        | succ k' => rw [List.get?_cons_succ] at h; simp at h
      · rename_i hbreak
        cases k with
        | zero =>
          rw [List.get?_cons_zero] at h
          rw [← Option.some.inj h]
          simp
        | succ k' =>
          rw [List.get?_cons_succ] at h
          have he : min (start + budget) tokens.length = start + budget := by
            rcases le_or_lt tokens.length (start + budget) with hle | hlt'
            · exfalso
              rw [min_eq_right hle] at hbreak
              exact hbreak (le_refl _)
            · exact min_eq_left (le_of_lt hlt')
          have hrec := ih (min (start + budget) tokens.length - overlap) (idx + 1) k' c h
          rw [hrec, he]
          have harith : start + budget - overlap + k' * (budget - overlap) =
              start + (k' + 1) * (budget - overlap) := by
            rw [Nat.succ_mul]
            generalize k' * (budget - overlap) = m
            omega
          rw [harith]
    · simp at h

end DocProcessor

/-- One-step unfolding of the chunk loop at positive fuel, used to
evaluate the loop on a long provision without deep kernel recursion. -/
theorem chunkLoopAux_unfold (b o : Nat) (t : List Nat) (f s i : Nat) (hf : 0 < f) :
    DocProcessor.chunkLoopAux b o t f s i =
      if s < t.length then
        (if t.length - o ≤ min (s + b) t.length - o then
          [⟨(t.drop s).take (min (s + b) t.length - s), i, (t.length + b - 1) / b⟩]
        else
          (⟨(t.drop s).take (min (s + b) t.length - s), i,
            (t.length + b - 1) / b⟩ : DocProcessor.TChunk) ::
            DocProcessor.chunkLoopAux b o t (f - 1) (min (s + b) t.length - o) (i + 1))
      else [] := by
  cases f with
  | zero => omega
  | succ f' =>
    rw [DocProcessor.chunkLoopAux]
    rfl

/-- Evaluation of `create_chunks` on a 6000-token stream: three chunks,
each labelled `total_chunks = 2`. -/
theorem c4cexEval :
    DocProcessor.create_chunks (List.replicate 6000 0) =
      [⟨((List.replicate 6000 (0 : Nat)).drop 0).take 3000, 0, 2⟩,
       ⟨((List.replicate 6000 (0 : Nat)).drop 2800).take 3000, 1, 2⟩,
       ⟨((List.replicate 6000 (0 : Nat)).drop 5600).take 400, 2, 2⟩] := by
  unfold DocProcessor.create_chunks DocProcessor._create_chunks DocProcessor.max_tokens
    DocProcessor.overlap_tokens
  simp only [List.length_replicate]
  rw [if_neg (by norm_num)]
  rw [chunkLoopAux_unfold 3000 200 _ 6000 0 0 (by norm_num)]
  simp only [List.length_replicate]
  rw [if_pos (by norm_num), if_neg (by norm_num)]
  norm_num
  rw [chunkLoopAux_unfold 3000 200 _ 5999 2800 1 (by norm_num)]
  simp only [List.length_replicate]
  rw [if_pos (by norm_num), if_neg (by norm_num)]
  norm_num
  rw [chunkLoopAux_unfold 3000 200 _ 5998 5600 2 (by norm_num)]
  simp only [List.length_replicate]
  rw [if_pos (by norm_num), if_pos (by norm_num)]
  norm_num

/-- Counterexample for C4 as stated: at the configured budget 3000 and
overlap 200, a 6000-token provision yields three chunks with indices
0, 1, 2, but every chunk's `total_chunks` metadata is ⌈6000/3000⌉ = 2, so
`total_chunks` does not equal the number of chunks actually emitted. -/
theorem C4_cex :
    (DocProcessor.create_chunks (List.replicate 6000 0)).map
      (fun c => (c.chunk_index, c.total_chunks)) = [(0, 2), (1, 2), (2, 2)] := by
  rw [c4cexEval]
  rfl

/-- Claim C4, amended.  A provision within the budget yields exactly one
chunk; for longer provisions every chunk is at most `budget` tokens, the
window slice of the k-th chunk starts at k·(budget − overlap) (the window
advances by budget − overlap per step), `chunk_index` values are the
contiguous sequence 0..N−1 for the N chunks emitted, and every sibling
carries the same `total_chunks = ⌈token count / budget⌉` — which can be
smaller than N. -/
theorem C4_chunk_window (budget overlap : Nat) (tokens : List Nat)
    (hob : overlap < budget) :
    (tokens.length ≤ budget →
      DocProcessor._create_chunks budget overlap tokens = [⟨tokens, 0, 1⟩]) ∧
    (∀ c ∈ DocProcessor._create_chunks budget overlap tokens,
      c.tokens.length ≤ budget) ∧
    (DocProcessor._create_chunks budget overlap tokens).map (·.chunk_index) =
      List.range (DocProcessor._create_chunks budget overlap tokens).length ∧
    (budget < tokens.length →
      ∀ c ∈ DocProcessor._create_chunks budget overlap tokens,
        c.total_chunks = (tokens.length + budget - 1) / budget) ∧
    (budget < tokens.length →
      ∀ (k : Nat) (c : DocProcessor.TChunk),
        (DocProcessor._create_chunks budget overlap tokens).get? k = some c →
        c.tokens = (tokens.drop (k * (budget - overlap))).take
          (min (k * (budget - overlap) + budget) tokens.length -
            k * (budget - overlap))) := by
  refine ⟨?_, ?_, ?_, ?_, ?_⟩
  · intro h
    unfold DocProcessor._create_chunks
    rw [if_pos h]
  · intro c hc
    unfold DocProcessor._create_chunks at hc
    split at hc
    · rename_i h
      rw [List.mem_singleton.mp hc]
      exact h
    · exact DocProcessor.chunkLoop_sizes budget overlap tokens tokens.length 0 0 c hc
  · unfold DocProcessor._create_chunks
    split
    · rfl
    · rw [DocProcessor.chunkLoop_indices, List.range_eq_range']
  · intro _ c hc
    unfold DocProcessor._create_chunks at hc
    split at hc
    · rename_i h
      omega
    · exact DocProcessor.chunkLoop_totals budget overlap tokens tokens.length 0 0 c hc
  · intro hlong k c hc
    unfold DocProcessor._create_chunks at hc
    rw [if_neg (by omega)] at hc
    have := DocProcessor.chunkLoop_slices budget overlap tokens hob tokens.length 0 0 k c hc
    simpa using this

/-- Witness for the amended C4 at the configured budget and overlap, on a
100-token and a 6000-token provision. -/
theorem C4_witness :
    DocProcessor._create_chunks 3000 200 (List.replicate 100 0) =
      [⟨List.replicate 100 0, 0, 1⟩] ∧
    (∀ c ∈ DocProcessor._create_chunks 3000 200 (List.replicate 6000 0),
      c.tokens.length ≤ 3000) ∧
    (∀ c ∈ DocProcessor._create_chunks 3000 200 (List.replicate 6000 0),
      c.total_chunks = (6000 + 3000 - 1) / 3000) :=
  have h100 := C4_chunk_window 3000 200 (List.replicate 100 0) (by decide)
  have h6000 := C4_chunk_window 3000 200 (List.replicate 6000 0) (by decide)
  ⟨h100.1 (by simp), h6000.2.1, by
    intro c hc
    have hlen : (List.replicate 6000 (0 : Nat)).length = 6000 := List.length_replicate _ _
    have h := (h6000.2.2.2.1 (by rw [hlen]; norm_num)) c hc
    rw [hlen] at h
    exact h⟩
